import Mathlib

/-!
Shallow embedding of the core of the `regua_uml` repository
(`regua_app/routes.py` together with the data model of
`regua_app/models.py`): the alternativa-chain resolver
(`cadeia_alternativas`), the edit-time cycle check inside
`editar_tema_regra`, and the Mermaid diagram synthesizer
(`gerar_diagrama_mermaid`), plus theorems settling the specification's
claims about them.

Persistence is modelled as an explicit record store; a route handler is a
pure function from the committed store and the submitted form fields to a
result carrying the new committed store.  Uncommitted ORM-session
mutations that are rendered back into a template are modelled as the
record value handed to the template.
-/

namespace ReguaApp

/-- Row of the `temas` table (the fields the core logic reads). -/
structure Tema where
  id : Nat
  nome : String
deriving DecidableEq

/-- Row of the `regras` table. -/
structure Regra where
  id : Nat
  descricao : String
deriving DecidableEq

/-- Row of the `temas_regras` table (the fields the core logic reads).
`alternativa_id` is the nullable self-referential pointer to another
`TemaRegra`. -/
structure TemaRegra where
  id : Nat
  tema_id : Nat
  regra_id : Nat
  alternativa_id : Option Nat
deriving DecidableEq

/-- Row of the `dias_comunicacoes` table (the fields the diagram
generator reads: the day number, the link reference, and the denormalized
`tema_nome` snapshot used as a label fallback). -/
structure DiaComunicacao where
  id : Nat
  dia : Nat
  tema_regra_id : Nat
  tema_nome : String
deriving DecidableEq

/-- The committed database state. -/
structure Store where
  temas : List Tema
  regras : List Regra
  temasRegras : List TemaRegra
  dias : List DiaComunicacao
deriving DecidableEq

/-- `Tema.query.get(i)` / the `etapa.tema` relationship. -/
def temaMap (s : Store) (i : Nat) : Option Tema :=
  s.temas.find? (fun t => t.id == i)

/-- `Regra.query.get(i)` / the `etapa.regra` relationship. -/
def regraMap (s : Store) (i : Nat) : Option Regra :=
  s.regras.find? (fun r => r.id == i)

/-- `TemaRegra.query.get(i)` and the `tema_regra_map` dictionary built in
`gerar_diagrama_mermaid` (primary keys are unique, so a dictionary keyed
by id and a first-match search agree). -/
def temaRegraMap (s : Store) (i : Nat) : Option TemaRegra :=
  s.temasRegras.find? (fun t => t.id == i)

/-- The id column of `temas_regras`, as a finite set. -/
def trIds (s : Store) : Finset Nat :=
  (s.temasRegras.map (fun t => t.id)).toFinset

/-- The `while corrente and corrente.alternativa_id:` loop of
`editar_tema_regra` (routes.py lines 236-251).  `vis` is `visitados`;
the loop signals `true` when the candidate alternativa would close a
cycle.  The loop adds a fresh id to `visitados` on every iteration, so
it stops within `|temas_regras| + 1` iterations; `fuel` makes that
termination explicit and `verificaCicloLoop_fuel_stable` below proves
the bound. -/
def verificaCicloLoop (s : Store) : List Nat → Option TemaRegra → Nat → Bool
  | _, none, _ => false
  | vis, some corrente, fuel =>
    match corrente.alternativa_id with
    | none => false
    | some a =>
      if a ∈ vis then true
      else
        match fuel with
        | 0 => false
        | Nat.succ f => verificaCicloLoop s (a :: vis) (temaRegraMap s a) f

/-- The edit-time cycle check of `editar_tema_regra` (routes.py lines
234-251): `corrente = TemaRegra.query.get(alternativa_id)`,
`visitados = {tema_regra.id}`, then the walk. -/
def wouldCreateCycle (s : Store) (trId alternativaId : Nat) : Bool :=
  verificaCicloLoop s [trId] (temaRegraMap s alternativaId) (s.temasRegras.length + 1)

/-- `UPDATE temas_regras SET ... WHERE id = i` as executed by the ORM
commit of the mutated record. -/
def updateTemaRegra (l : List TemaRegra) (i : Nat) (novo : TemaRegra) : List TemaRegra :=
  l.map (fun tr => if tr.id == i then novo else tr)

/-- Result of the POST branch of `editar_tema_regra`.  `cycleRejected`
carries the unchanged committed store (the handler returns without
`db.session.commit()`, so the transaction is discarded at request
teardown) and the in-memory `tema_regra` object handed back to the
redisplayed form (whose `tema_id`/`regra_id` were already overwritten at
routes.py lines 227-228, while `alternativa_id` still holds its pre-edit
value). -/
inductive EditResult where
  | notFound : EditResult
  | cycleRejected (store : Store) (formState : TemaRegra) : EditResult
  | committed (store : Store) : EditResult
deriving DecidableEq

/-- POST branch of `editar_tema_regra` (routes.py lines 201-255).
The cycle check only reads `alternativa_id` fields, which the pending
`tema_id`/`regra_id` mutations do not touch, so running it against the
committed store is exact. -/
def editarTemaRegra (s : Store) (trId : Nat) (formTemaId formRegraId : Nat)
    (formAlternativaId : Option Nat) : EditResult :=
  match temaRegraMap s trId with
  | none => .notFound
  | some tr =>
    let draft : TemaRegra := { tr with tema_id := formTemaId, regra_id := formRegraId }
    match formAlternativaId with
    | some altId =>
      if wouldCreateCycle s trId altId then
        .cycleRejected s draft
      else
        let final : TemaRegra := { draft with alternativa_id := some altId }
        .committed { s with temasRegras := updateTemaRegra s.temasRegras trId final }
    | none =>
      let final : TemaRegra := { draft with alternativa_id := none }
      .committed { s with temasRegras := updateTemaRegra s.temasRegras trId final }

/-- The `while corrente and corrente.id not in visitados:` loop of
`cadeia_alternativas` (routes.py lines 425-437).  As for the cycle
check, every iteration adds a fresh id to `visitados`, so
`|temas_regras| + 1` fuel is always enough (proved below). -/
def cadeiaAlternativasGo (s : Store) : List Nat → Option TemaRegra → Nat → List TemaRegra
  | _, none, _ => []
  | vis, some corrente, fuel =>
    if corrente.id ∈ vis then []
    else
      match fuel with
      | 0 => []
      | Nat.succ f =>
        corrente ::
          (match corrente.alternativa_id with
           | none => []
           | some j => cadeiaAlternativasGo s (corrente.id :: vis) (temaRegraMap s j) f)

/-- `cadeia_alternativas(tr_inicial)` (routes.py lines 425-437). -/
def cadeiaAlternativas (s : Store) (trInicial : TemaRegra) : List TemaRegra :=
  cadeiaAlternativasGo s [] (some trInicial) (s.temasRegras.length + 1)

/-! ### The diagram synthesizer `gerar_diagrama_mermaid` (routes.py 369-528)

The Python function assembles a list of Mermaid text lines.  Every line it
appends has one of finitely many shapes (`flowchart LR`, a node
declaration, an edge, a `classDef`, a `class` assignment), and every node
identifier it mentions is built by one of four f-strings (`SD`, `D{n}`,
`ST{dia}_{idx}_{nivel}_ENTRY`, `ST{dia}_{idx}_{nivel}_MSG`).  The
embedding keeps those shapes as inductive types and provides `renderNodeId`
/ `renderLine` reproducing the exact strings, with
`gerarDiagramaMermaid = "\n"-joined rendered lines` as in the source. -/

/-- `fim_dia_valor = 99999` (routes.py line 396). -/
def fimDiaValor : Nat := 99999

/-- The node identifiers occurring in the generated diagram. -/
inductive NodeId where
  | sd : NodeId
  | dia (n : Nat) : NodeId
  | stEntry (dia idx nivel : Nat) : NodeId
  | stMsg (dia idx nivel : Nat) : NodeId
deriving DecidableEq

/-- `fim_node_id = f"D{fim_dia_valor}"` (routes.py line 397): the
terminal node reuses the day-node identifier scheme. -/
def fimNodeId : NodeId := NodeId.dia fimDiaValor

/-- The shapes of the text lines appended by `gerar_diagrama_mermaid`. -/
inductive Line where
  | flowchartHeader : Line
  | nodeDia (id : NodeId) (label : String) : Line
  | nodeMsg (id : NodeId) (label : String) : Line
  | nodeDecisao (id : NodeId) (label : String) : Line
  | edge (a b : NodeId) (rotulo : Option String) : Line
  | classDefDia : Line
  | classDefDecisao : Line
  | classAssign (ids : List NodeId) (nome : String) : Line
deriving DecidableEq

/-- The node-identifier f-strings of the source. -/
def renderNodeId : NodeId → String
  | NodeId.sd => "SD"
  | NodeId.dia n => "D" ++ toString n
  | NodeId.stEntry d i nv =>
    "ST" ++ toString d ++ "_" ++ toString i ++ "_" ++ toString nv ++ "_ENTRY"
  | NodeId.stMsg d i nv =>
    "ST" ++ toString d ++ "_" ++ toString i ++ "_" ++ toString nv ++ "_MSG"

/-- The exact text of each appended line (decision nodes use literal
curly braces, written `\x7b`/`\x7d`). -/
def renderLine : Line → String
  | Line.flowchartHeader => "flowchart LR"
  | Line.nodeDia i lbl => "    " ++ renderNodeId i ++ "[\"" ++ lbl ++ "\"]:::dia"
  | Line.nodeMsg i lbl => "    " ++ renderNodeId i ++ "[\"" ++ lbl ++ "\"]"
  | Line.nodeDecisao i lbl => "    " ++ renderNodeId i ++ "\x7b\"" ++ lbl ++ "\"\x7d"
  | Line.edge a b none => "    " ++ renderNodeId a ++ " --> " ++ renderNodeId b
  | Line.edge a b (some r) => "    " ++ renderNodeId a ++ " -->|" ++ r ++ "| " ++ renderNodeId b
  | Line.classDefDia =>
    "    classDef dia fill:#FFF3CD,stroke:#C77D00,stroke-width:2px,rx:8,ry:8;"
  | Line.classDefDecisao =>
    "    classDef decisao fill:#E2F0FF,stroke:#0F5DA3,stroke-width:2px;"
  | Line.classAssign ids nome =>
    "    class " ++ String.intercalate "," (ids.map renderNodeId) ++ " " ++ nome

/-- Python `str.strip()` on the character list of a string. -/
def pyStrip (cs : List Char) : List Char :=
  ((cs.dropWhile Char.isWhitespace).reverse.dropWhile Char.isWhitespace).reverse

/-- Python `str.lower()` (ASCII case folding, which is all the labels
here exercise). -/
def pyLower (cs : List Char) : List Char :=
  cs.map Char.toLower

/-- Python `str.replace(old, new)` for a single-character `old` (the
only shape `sanitize` uses). -/
def pyReplaceChar (c : Char) (repl : List Char) : List Char → List Char
  | [] => []
  | x :: xs => (if x = c then repl else [x]) ++ pyReplaceChar c repl xs

/-- Python `str.endswith(suffix)`. -/
def pyEndsWith (suffix cs : List Char) : Bool :=
  suffix.isSuffixOf cs

/-- `sanitize(texto, default)` (routes.py lines 412-417):
strip, fall back to the default when blank, then replace `"` by `'`
and newlines by `<br/>`. -/
def sanitize (texto default : String) : String :=
  let t := String.mk (pyStrip texto.data)
  let t := if t = "" then default else t
  String.mk (pyReplaceChar '\n' ("<br/>".data) (pyReplaceChar '"' ("'".data) t.data))

/-- `regra_para_decisao(texto)` (routes.py lines 419-423). -/
def regraParaDecisao (texto : String) : String :=
  let t := sanitize texto "Regra"
  if pyEndsWith ("?".data) t.data then t else t ++ "?"

/-- `enumerate(l, start=i)`. -/
def enumFrom {α : Type} (i : Nat) : List α → List (Nat × α)
  | [] => []
  | a :: as => (i, a) :: enumFrom (i + 1) as

/-- The per-step dictionary built at routes.py lines 467-493. -/
structure Etapa where
  nivel : Nat
  entryId : NodeId
  msgId : NodeId
  tema : String
  regra : String
  temRegra : Bool
deriving DecidableEq

/-- One iteration of the `for nivel, etapa in enumerate(cadeia)` loop
(routes.py lines 468-493); `temRegra` is the source's `has_rule`. -/
def mkEtapa (s : Store) (registro : DiaComunicacao) (diaValor idx nivel : Nat)
    (etapa : TemaRegra) : Etapa :=
  let temaLabel := sanitize
    (match temaMap s etapa.tema_id with
     | some t => t.nome
     | none => registro.tema_nome) "Tema"
  let regraLabel := sanitize
    (match regraMap s etapa.regra_id with
     | some r => r.descricao
     | none => "") ""
  let temRegra := (regraLabel != "") && (String.mk (pyLower regraLabel.data) != "sem regra")
  let msgId := NodeId.stMsg diaValor idx nivel
  let entryId := if temRegra then NodeId.stEntry diaValor idx nivel else msgId
  { nivel := nivel, entryId := entryId, msgId := msgId,
    tema := temaLabel, regra := regraLabel, temRegra := temRegra }

/-- The `etapas` list for one schedule record. -/
def mkEtapas (s : Store) (registro : DiaComunicacao) (diaValor idx : Nat)
    (cadeia : List TemaRegra) : List Etapa :=
  (enumFrom 0 cadeia).map (fun p => mkEtapa s registro diaValor idx p.1 p.2)

/-- One iteration of the node-declaration pass (routes.py lines
495-502). -/
def declBlock (e : Etapa) : List Line :=
  (if e.temRegra then [Line.nodeDecisao e.entryId (regraParaDecisao e.regra)] else [])
    ++ [Line.nodeMsg e.msgId e.tema]

/-- The node-declaration pass (routes.py lines 495-502). -/
def etapaDeclLines (etapas : List Etapa) : List Line :=
  (etapas.map declBlock).flatten

/-- The `decision_nodes.append(entry_id)` accumulation (routes.py line 501). -/
def etapaDecisionIds (etapas : List Etapa) : List NodeId :=
  (etapas.filter (fun e => e.temRegra)).map (fun e => e.entryId)

/-- One iteration of the wiring pass (routes.py lines 504-518):
`pos == 0` hangs the step off the day node, a rule gets its "Sim" edge
and a "Não" edge to the following step's entry (or, on the last step,
back to its own message). -/
def wireBlock (diaValor : Nat) (etapas : List Etapa) (pos : Nat) (e : Etapa) :
    List Line :=
  if e.temRegra then
    (if pos = 0 then [Line.edge (NodeId.dia diaValor) e.entryId none] else [])
      ++ [Line.edge e.entryId e.msgId (some "Sim")]
      ++ (match etapas[pos + 1]? with
          | some prox => [Line.edge e.entryId prox.entryId (some "Não")]
          | none => [Line.edge e.entryId e.msgId (some "Não")])
  else
    if pos = 0 then [Line.edge (NodeId.dia diaValor) e.msgId none] else []

/-- The wiring pass (routes.py lines 504-518). -/
def etapaWireLines (diaValor : Nat) (etapas : List Etapa) : List Line :=
  ((enumFrom 0 etapas).map (fun p => wireBlock diaValor etapas p.1 p.2)).flatten

/-- Lines and accumulated decision nodes contributed by one schedule
record (`registro`, routes.py lines 458-518): a link-lookup miss or an
empty chain contributes nothing (`continue`). -/
def registroLines (s : Store) (diaValor idx : Nat) (registro : DiaComunicacao) :
    List Line × List NodeId :=
  match temaRegraMap s registro.tema_regra_id with
  | none => ([], [])
  | some tr =>
    let cadeia := cadeiaAlternativas s tr
    if cadeia = [] then ([], [])
    else
      let etapas := mkEtapas s registro diaValor idx cadeia
      (etapaDeclLines etapas ++ etapaWireLines diaValor etapas, etapaDecisionIds etapas)

/-- `DiaComunicacao.query.order_by(DiaComunicacao.dia, DiaComunicacao.id)`
(routes.py lines 384-388). -/
def diasOrdenados (s : Store) : List DiaComunicacao :=
  List.insertionSort
    (fun a b => a.dia < b.dia ∨ (a.dia = b.dia ∧ a.id ≤ b.id)) s.dias

/-- `por_dia[n]`: the records of day `n` in query order (routes.py lines
390-392; `setdefault`/`append` preserves the iteration order). -/
def porDia (s : Store) (n : Nat) : List DiaComunicacao :=
  (diasOrdenados s).filter (fun d => d.dia == n)

/-- `ordered_days = sorted(por_dia.keys())` (routes.py line 394): the
distinct day values, ascending. -/
def orderedDays (s : Store) : List Nat :=
  List.insertionSort (fun a b => a ≤ b) (s.dias.map (fun d => d.dia)).dedup

/-- The `D{a} --> D{b}` spine edges over consecutive ordered days
(routes.py lines 449-451). -/
def spineEdges (days : List Nat) : List Line :=
  (days.zip days.tail).map (fun p => Line.edge (NodeId.dia p.1) (NodeId.dia p.2) none)

/-- The `day_nodes` list (routes.py lines 441-447): one day node per
ordered day plus the terminal. -/
def dayNodesOf (days : List Nat) : List NodeId :=
  days.map (fun n => NodeId.dia n) ++ [fimNodeId]

/-- The day-node declarations (routes.py lines 441-444). -/
def dayDeclLines (days : List Nat) : List Line :=
  days.map (fun n => Line.nodeDia (NodeId.dia n) ("Dia " ++ toString n))

/-- `D{last} --> {fim}` (routes.py lines 453-454). -/
def lastEdgeLines (days : List Nat) : List Line :=
  match days.getLast? with
  | some l => [Line.edge (NodeId.dia l) fimNodeId none]
  | none => []

/-- The per-day iteration over `enumerate(blocos, start=1)` (routes.py
lines 456-458). -/
def blocosOf (s : Store) (diaValor : Nat) : List (List Line × List NodeId) :=
  (enumFrom 1 (porDia s diaValor)).map (fun p => registroLines s diaValor p.1 p.2)

/-- All chain-emitted lines, over every day (routes.py lines 456-518). -/
def chainLinesOf (s : Store) (days : List Nat) : List Line :=
  (days.map (fun dv => ((blocosOf s dv).map Prod.fst).flatten)).flatten

/-- All accumulated decision-node ids (routes.py line 501). -/
def decisionNodesOf (s : Store) (days : List Nat) : List NodeId :=
  (days.map (fun dv => ((blocosOf s dv).map Prod.snd).flatten)).flatten

/-- `gerar_diagrama_mermaid` (routes.py lines 369-528), as the list of
appended lines, in emission order. -/
def gerarLines (s : Store) : List Line :=
  let days := orderedDays s
  if days = [] then
    [Line.flowchartHeader,
     Line.nodeMsg NodeId.sd "Sem dias cadastrados",
     Line.nodeDia fimNodeId "Fim",
     Line.edge NodeId.sd fimNodeId none,
     Line.classDefDia,
     Line.classAssign [fimNodeId] "dia"]
  else
    [Line.flowchartHeader] ++ dayDeclLines days ++ [Line.nodeDia fimNodeId "Fim"]
      ++ spineEdges days ++ lastEdgeLines days ++ chainLinesOf s days
      ++ (if dayNodesOf days = [] then []
          else [Line.classDefDia, Line.classAssign (dayNodesOf days) "dia"])
      ++ (if decisionNodesOf s days = [] then []
          else [Line.classDefDecisao,
            Line.classAssign (decisionNodesOf s days) "decisao"])

/-- The final `join` over newline (routes.py line 528). -/
def gerarDiagramaMermaid (s : Store) : String :=
  String.intercalate "\n" ((gerarLines s).map renderLine)

/-! ### Observation helpers used to state the claims -/

/-- The identifier a line declares, when it is a node declaration. -/
def declIdOf : Line → Option NodeId
  | Line.nodeDia i _ => some i
  | Line.nodeMsg i _ => some i
  | Line.nodeDecisao i _ => some i
  | _ => none

/-- The node identifiers declared by the diagram. -/
def declaredNodeIds (ls : List Line) : List NodeId :=
  ls.filterMap declIdOf

/-- Does some emitted edge have `i` as an endpoint? -/
def edgeTouches (ls : List Line) (i : NodeId) : Bool :=
  ls.any (fun l =>
    match l with
    | Line.edge a b _ => a == i || b == i
    | _ => false)

/-- No chain step without a real rule is immediately followed by another
step: the side condition under which the emitted diagram has no dangling
nodes (a message node of a step that follows a no-rule step is declared
but never wired). -/
def noConsecSemRegra (etapas : List Etapa) : Bool :=
  (enumFrom 0 etapas).all (fun p =>
    match etapas[p.1 + 1]? with
    | none => true
    | some prox => p.2.temRegra || prox.temRegra)

/-- Spec-side comparator for C1, modelled from the spec's words:
"walking the alternativa chain forward from B eventually reaches A" —
`a` is among the links visited by the forward walk from `b` (the walk
stops at a chain end, a dangling reference, or upon closing a cycle, so
the visited set is exactly the set of links the infinite forward walk
would ever touch). -/
def reachesForward (s : Store) (b a : Nat) : Bool :=
  match temaRegraMap s b with
  | none => false
  | some tr => ((cadeiaAlternativas s tr).map (fun t => t.id)).contains a

/-- `rank` strictly decreases along every in-store `alternativa` edge. -/
def RankOk (s : Store) (rank : Nat → Nat) : Prop :=
  ∀ tr ∈ s.temasRegras, ∀ j, tr.alternativa_id = some j →
    ∀ tr' ∈ s.temasRegras, tr'.id = j → rank j < rank tr.id

/-- The spec invariant "the alternativa graph must be cycle-free",
expressed by a rank function that strictly decreases along every
in-store `alternativa` edge. -/
def AcyclicAlt (s : Store) : Prop :=
  ∃ rank : Nat → Nat, RankOk s rank

/-- The alternativa ids the forward walk from `c` inspects, in order:
the cycle check of `editar_tema_regra` compares exactly these ids
against its visited set. -/
def walkTargets (s : Store) (c : TemaRegra) : List Nat :=
  (cadeiaAlternativas s c).filterMap (fun t => t.alternativa_id)

/-! ### Concrete stores used for counterexamples and witnesses -/

/-- Links 3 and 4 form a pre-existing alternativa cycle reachable from
link 2; link 1 is isolated. -/
def storeC1 : Store :=
  ⟨[], [], [⟨1, 1, 1, none⟩, ⟨2, 1, 1, some 3⟩, ⟨3, 1, 1, some 4⟩, ⟨4, 1, 1, some 3⟩], []⟩

/-- A single link with no alternativa. -/
def storeC2 : Store := ⟨[], [], [⟨1, 1, 1, none⟩], []⟩

/-- Link 2 already points back at link 1, so selecting it as link 1's
alternativa is a cycle conflict. -/
def storeC3 : Store := ⟨[], [], [⟨1, 10, 20, none⟩, ⟨2, 1, 1, some 1⟩], []⟩

/-- A two-link alternativa cycle. -/
def storeC5 : Store := ⟨[], [], [⟨1, 1, 1, some 2⟩, ⟨2, 1, 1, some 1⟩], []⟩

/-- The spec's scenario: link 1 (theme X, rule "Opened email?") falls
back to link 2 (theme Y, rule "Sem Regra"), scheduled at day 3. -/
def storeC6 : Store :=
  ⟨[⟨1, "X"⟩, ⟨2, "Y"⟩], [⟨1, "Opened email?"⟩, ⟨2, "Sem Regra"⟩],
   [⟨1, 1, 1, some 2⟩, ⟨2, 2, 2, none⟩], [⟨1, 3, 1, "X"⟩]⟩

/-- Two chained links both carrying the "Sem Regra" sentinel rule,
scheduled at day 1. -/
def storeC7 : Store :=
  ⟨[⟨1, "A"⟩, ⟨2, "B"⟩], [⟨1, "Sem Regra"⟩],
   [⟨1, 1, 1, some 2⟩, ⟨2, 2, 1, none⟩], [⟨1, 1, 1, "A"⟩]⟩

/-- A schedule entry whose day value is the terminal sentinel 99999. -/
def storeC8 : Store := ⟨[], [], [], [⟨1, 99999, 5, "X"⟩]⟩

/-- Day 2 carries two schedule records; the second references the
nonexistent link 7. -/
def storeC9 : Store :=
  ⟨[⟨1, "A"⟩], [⟨1, "Regra A?"⟩], [⟨1, 1, 1, none⟩],
   [⟨1, 2, 1, "A"⟩, ⟨2, 2, 7, "X"⟩]⟩

/-- A single link whose alternativa points at the nonexistent link 7. -/
def storeC10 : Store := ⟨[], [], [⟨1, 1, 1, some 7⟩], []⟩

/-! ### Helper lemmas: lookups -/

lemma temaRegraMap_mem {s : Store} {i : Nat} {tr : TemaRegra}
    (h : temaRegraMap s i = some tr) : tr ∈ s.temasRegras :=
  List.mem_of_find?_eq_some h

lemma temaRegraMap_id {s : Store} {i : Nat} {tr : TemaRegra}
    (h : temaRegraMap s i = some tr) : tr.id = i := by
  have := List.find?_some h
  simpa using this

lemma mem_trIds_of_temaRegraMap {s : Store} {i : Nat} {tr : TemaRegra}
    (h : temaRegraMap s i = some tr) : i ∈ trIds s := by
  have hm := temaRegraMap_mem h
  have hid := temaRegraMap_id h
  simp only [trIds, List.mem_toFinset, List.mem_map]
  exact ⟨tr, hm, hid⟩

lemma temaRegraMap_eq_none_of_not_mem {s : Store} {i : Nat}
    (h : i ∉ trIds s) : temaRegraMap s i = none := by
  cases hfind : temaRegraMap s i with
  | none => rfl
  | some tr => exact absurd (mem_trIds_of_temaRegraMap hfind) h

lemma mem_trIds_id {s : Store} {tr : TemaRegra} (h : tr ∈ s.temasRegras) :
    tr.id ∈ trIds s := by
  simp only [trIds, List.mem_toFinset, List.mem_map]
  exact ⟨tr, h, rfl⟩

lemma trIds_card_le (s : Store) : (trIds s).card ≤ s.temasRegras.length := by
  calc (trIds s).card ≤ (s.temasRegras.map (fun t => t.id)).length :=
        List.toFinset_card_le _
    _ = s.temasRegras.length := List.length_map _ _

/-! ### Helper lemmas: the chain walk `cadeiaAlternativasGo` -/

lemma cadeiaGo_none (s : Store) (vis : List Nat) (fuel : Nat) :
    cadeiaAlternativasGo s vis none fuel = [] := by
  simp [cadeiaAlternativasGo]

lemma cadeiaGo_guard {s : Store} {vis : List Nat} {c : TemaRegra} (fuel : Nat)
    (hg : c.id ∈ vis) : cadeiaAlternativasGo s vis (some c) fuel = [] := by
  cases fuel <;> simp [cadeiaAlternativasGo, hg]

lemma cadeiaGo_zero {s : Store} {vis : List Nat} {c : TemaRegra} :
    cadeiaAlternativasGo s vis (some c) 0 = [] := by
  by_cases hg : c.id ∈ vis <;> simp [cadeiaAlternativasGo, hg]

lemma cadeiaGo_cons_none {s : Store} {vis : List Nat} {c : TemaRegra} {f : Nat}
    (hg : c.id ∉ vis) (halt : c.alternativa_id = none) :
    cadeiaAlternativasGo s vis (some c) (f + 1) = [c] := by
  simp [cadeiaAlternativasGo, hg, halt]

lemma cadeiaGo_cons_some {s : Store} {vis : List Nat} {c : TemaRegra} {f j : Nat}
    (hg : c.id ∉ vis) (halt : c.alternativa_id = some j) :
    cadeiaAlternativasGo s vis (some c) (f + 1)
      = c :: cadeiaAlternativasGo s (c.id :: vis) (temaRegraMap s j) f := by
  simp [cadeiaAlternativasGo, hg, halt]

/-- The head of a non-empty walk result is the current record. -/
lemma cadeiaGo_head {s : Store} {vis : List Nat} {cur : Option TemaRegra}
    {fuel : Nat} {b : TemaRegra}
    (h : (cadeiaAlternativasGo s vis cur fuel)[0]? = some b) : cur = some b := by
  cases cur with
  | none => rw [cadeiaGo_none] at h; simp at h
  | some c =>
    by_cases hg : c.id ∈ vis
    · rw [cadeiaGo_guard _ hg] at h; simp at h
    · cases fuel with
      | zero => rw [cadeiaGo_zero] at h; simp at h
      | succ f =>
        cases halt : c.alternativa_id with
        | none =>
          rw [cadeiaGo_cons_none hg halt] at h
          simp only [List.getElem?_cons_zero, Option.some.injEq] at h
          rw [h]
        | some j =>
          rw [cadeiaGo_cons_some hg halt] at h
          simp only [List.getElem?_cons_zero, Option.some.injEq] at h
          rw [h]

/-- Consecutive walk entries are linked by `alternativa_id` through the
lookup map. -/
lemma cadeiaGo_succ (s : Store) : ∀ (fuel : Nat) (vis : List Nat)
    (cur : Option TemaRegra) (i : Nat) (a b : TemaRegra),
    (cadeiaAlternativasGo s vis cur fuel)[i]? = some a →
    (cadeiaAlternativasGo s vis cur fuel)[i + 1]? = some b →
    ∃ j, a.alternativa_id = some j ∧ temaRegraMap s j = some b := by
  intro fuel
  induction fuel with
  | zero =>
    intro vis cur i a b ha _
    cases cur with
    | none => rw [cadeiaGo_none] at ha; simp at ha
    | some c => rw [cadeiaGo_zero] at ha; simp at ha
  | succ f ih =>
    intro vis cur i a b ha hb
    cases cur with
    | none => rw [cadeiaGo_none] at ha; simp at ha
    | some c =>
      by_cases hg : c.id ∈ vis
      · rw [cadeiaGo_guard _ hg] at ha; simp at ha
      · cases halt : c.alternativa_id with
        | none =>
          rw [cadeiaGo_cons_none hg halt] at ha hb
          cases i with
          | zero => simp at hb
          | succ k => simp at ha
        | some j =>
          rw [cadeiaGo_cons_some hg halt] at ha hb
          cases i with
          | zero =>
            simp only [List.getElem?_cons_zero, Option.some.injEq] at ha
            simp only [List.getElem?_cons_succ] at hb
            refine ⟨j, ?_, cadeiaGo_head hb⟩
            rw [← ha]; exact halt
          | succ k =>
            simp only [List.getElem?_cons_succ] at ha hb
            exact ih (c.id :: vis) (temaRegraMap s j) k a b ha hb

/-- The ids collected by the walk repeat neither themselves nor the
visited set. -/
lemma cadeiaGo_nodup_aux (s : Store) : ∀ (fuel : Nat) (vis : List Nat)
    (cur : Option TemaRegra),
    ((cadeiaAlternativasGo s vis cur fuel).map (fun t => t.id)).Nodup ∧
    ∀ x ∈ (cadeiaAlternativasGo s vis cur fuel).map (fun t => t.id), x ∉ vis := by
  intro fuel
  induction fuel with
  | zero =>
    intro vis cur
    cases cur with
    | none => simp [cadeiaGo_none]
    | some c => simp [cadeiaGo_zero]
  | succ f ih =>
    intro vis cur
    cases cur with
    | none => simp [cadeiaGo_none]
    | some c =>
      by_cases hg : c.id ∈ vis
      · simp [cadeiaGo_guard _ hg]
      · cases halt : c.alternativa_id with
        | none =>
          rw [cadeiaGo_cons_none hg halt]
          simpa using hg
        | some j =>
          rw [cadeiaGo_cons_some hg halt]
          obtain ⟨ihn, ihd⟩ := ih (c.id :: vis) (temaRegraMap s j)
          constructor
          · simp only [List.map_cons, List.nodup_cons]
            refine ⟨fun hc => ?_, ihn⟩
            exact (ihd _ hc) (List.mem_cons_self _ _)
          · intro x hx
            simp only [List.map_cons, List.mem_cons] at hx
            rcases hx with rfl | hx
            · exact hg
            · intro hv
              exact (ihd _ hx) (List.mem_cons_of_mem _ hv)

/-- Every record the walk returns is a stored record, provided the
current record is. -/
lemma cadeiaGo_subset (s : Store) : ∀ (fuel : Nat) (vis : List Nat)
    (cur : Option TemaRegra),
    (∀ c, cur = some c → c ∈ s.temasRegras) →
    ∀ x ∈ cadeiaAlternativasGo s vis cur fuel, x ∈ s.temasRegras := by
  intro fuel
  induction fuel with
  | zero =>
    intro vis cur _ x hx
    cases cur with
    | none => rw [cadeiaGo_none] at hx; simp at hx
    | some c => rw [cadeiaGo_zero] at hx; simp at hx
  | succ f ih =>
    intro vis cur hcur x hx
    cases cur with
    | none => rw [cadeiaGo_none] at hx; simp at hx
    | some c =>
      by_cases hg : c.id ∈ vis
      · rw [cadeiaGo_guard _ hg] at hx; simp at hx
      · cases halt : c.alternativa_id with
        | none =>
          rw [cadeiaGo_cons_none hg halt] at hx
          simp only [List.mem_singleton] at hx
          exact hx ▸ hcur c rfl
        | some j =>
          rw [cadeiaGo_cons_some hg halt] at hx
          rcases List.mem_cons.mp hx with rfl | hx
          · exact hcur x rfl
          · exact ih (c.id :: vis) (temaRegraMap s j)
              (fun c' hc' => temaRegraMap_mem hc') x hx

/-- Adding a fresh stored id to the visited set shrinks the set of
stored ids still available to the walk. -/
lemma measure_step {s : Store} {vis : List Nat} {a : Nat}
    (hmem : a ∈ trIds s) (hnv : a ∉ vis) :
    (trIds s \ (a :: vis).toFinset).card < (trIds s \ vis.toFinset).card := by
  rw [List.toFinset_cons, Finset.sdiff_insert]
  have hin : a ∈ trIds s \ vis.toFinset :=
    Finset.mem_sdiff.mpr ⟨hmem, by simpa using hnv⟩
  rw [Finset.card_erase_of_mem hin]
  have hpos : 0 < (trIds s \ vis.toFinset).card := Finset.card_pos.mpr ⟨a, hin⟩
  omega

/-- The chain walk stabilizes once the fuel exceeds the number of stored
ids outside the visited set: the loop terminates within that many
iterations. -/
lemma cadeiaGo_fuel_stable (s : Store) : ∀ (f1 f2 : Nat) (vis : List Nat)
    (cur : Option TemaRegra),
    (∀ c, cur = some c → c ∈ s.temasRegras) →
    (trIds s \ vis.toFinset).card < f1 →
    (trIds s \ vis.toFinset).card < f2 →
    cadeiaAlternativasGo s vis cur f1 = cadeiaAlternativasGo s vis cur f2 := by
  intro f1
  induction f1 with
  | zero => intro f2 vis cur _ h1 _; omega
  | succ g1 ih =>
    intro f2 vis cur hcur h1 h2
    cases cur with
    | none => rw [cadeiaGo_none, cadeiaGo_none]
    | some c =>
      by_cases hg : c.id ∈ vis
      · rw [cadeiaGo_guard _ hg, cadeiaGo_guard _ hg]
      · cases f2 with
        | zero => omega
        | succ g2 =>
          cases halt : c.alternativa_id with
          | none => rw [cadeiaGo_cons_none hg halt, cadeiaGo_cons_none hg halt]
          | some j =>
            rw [cadeiaGo_cons_some hg halt, cadeiaGo_cons_some hg halt]
            have hstep := measure_step (mem_trIds_id (hcur c rfl)) hg
            have := ih g2 (c.id :: vis) (temaRegraMap s j)
              (fun c' hc' => temaRegraMap_mem hc') (by omega) (by omega)
            rw [this]

/-! ### Helper lemmas: the cycle-check loop `verificaCicloLoop` -/

lemma cicloLoop_none (s : Store) (vis : List Nat) (fuel : Nat) :
    verificaCicloLoop s vis none fuel = false := by
  simp [verificaCicloLoop]

lemma cicloLoop_alt_none {s : Store} {vis : List Nat} {c : TemaRegra} (fuel : Nat)
    (halt : c.alternativa_id = none) :
    verificaCicloLoop s vis (some c) fuel = false := by
  cases fuel <;> simp [verificaCicloLoop, halt]

lemma cicloLoop_hit {s : Store} {vis : List Nat} {c : TemaRegra} {a : Nat} (fuel : Nat)
    (halt : c.alternativa_id = some a) (hv : a ∈ vis) :
    verificaCicloLoop s vis (some c) fuel = true := by
  cases fuel <;> simp [verificaCicloLoop, halt, hv]

lemma cicloLoop_zero {s : Store} {vis : List Nat} {c : TemaRegra} {a : Nat}
    (halt : c.alternativa_id = some a) (hv : a ∉ vis) :
    verificaCicloLoop s vis (some c) 0 = false := by
  simp [verificaCicloLoop, halt, hv]

lemma cicloLoop_step {s : Store} {vis : List Nat} {c : TemaRegra} {a f : Nat}
    (halt : c.alternativa_id = some a) (hv : a ∉ vis) :
    verificaCicloLoop s vis (some c) (f + 1)
      = verificaCicloLoop s (a :: vis) (temaRegraMap s a) f := by
  simp [verificaCicloLoop, halt, hv]

/-- The cycle-check loop stabilizes once the fuel exceeds the number of
stored ids outside the visited set. -/
lemma cicloLoop_fuel_stable (s : Store) : ∀ (f1 f2 : Nat) (vis : List Nat)
    (cur : Option TemaRegra),
    (trIds s \ vis.toFinset).card < f1 →
    (trIds s \ vis.toFinset).card < f2 →
    verificaCicloLoop s vis cur f1 = verificaCicloLoop s vis cur f2 := by
  intro f1
  induction f1 with
  | zero => intro f2 vis cur h1 _; omega
  | succ g1 ih =>
    intro f2 vis cur h1 h2
    cases cur with
    | none => rw [cicloLoop_none, cicloLoop_none]
    | some c =>
      cases halt : c.alternativa_id with
      | none => rw [cicloLoop_alt_none _ halt, cicloLoop_alt_none _ halt]
      | some a =>
        by_cases hv : a ∈ vis
        · rw [cicloLoop_hit _ halt hv, cicloLoop_hit _ halt hv]
        · cases f2 with
          | zero => omega
          | succ g2 =>
            rw [cicloLoop_step halt hv, cicloLoop_step halt hv]
            by_cases hmem : a ∈ trIds s
            · have hstep := measure_step hmem hv
              exact ih g2 (a :: vis) (temaRegraMap s a) (by omega) (by omega)
            · rw [temaRegraMap_eq_none_of_not_mem hmem,
                cicloLoop_none, cicloLoop_none]

/-! ### Derived facts about `cadeiaAlternativas` -/

lemma cadeia_head (s : Store) (tr : TemaRegra) :
    (cadeiaAlternativas s tr)[0]? = some tr := by
  unfold cadeiaAlternativas
  cases halt : tr.alternativa_id with
  | none => rw [cadeiaGo_cons_none (List.not_mem_nil _) halt]; simp
  | some j => rw [cadeiaGo_cons_some (List.not_mem_nil _) halt]; simp

lemma cadeia_succ {s : Store} {tr : TemaRegra} {i : Nat} {a b : TemaRegra}
    (ha : (cadeiaAlternativas s tr)[i]? = some a)
    (hb : (cadeiaAlternativas s tr)[i + 1]? = some b) :
    ∃ j, a.alternativa_id = some j ∧ temaRegraMap s j = some b :=
  cadeiaGo_succ s _ _ _ i a b ha hb

lemma cadeia_nodup (s : Store) (tr : TemaRegra) :
    ((cadeiaAlternativas s tr).map (fun t => t.id)).Nodup :=
  (cadeiaGo_nodup_aux s _ _ _).1

/-- A link whose `alternativa_id` is `none` ends the chain. -/
lemma cadeia_stop_none {s : Store} {tr : TemaRegra} {i : Nat} {a : TemaRegra}
    (ha : (cadeiaAlternativas s tr)[i]? = some a)
    (halt : a.alternativa_id = none) :
    (cadeiaAlternativas s tr)[i + 1]? = none := by
  cases hb : (cadeiaAlternativas s tr)[i + 1]? with
  | none => rfl
  | some b =>
    obtain ⟨j, hj, -⟩ := cadeia_succ ha hb
    rw [halt] at hj
    exact absurd hj (by simp)

/-- A link whose `alternativa_id` dangles (no stored record) ends the
chain. -/
lemma cadeia_stop_dangling {s : Store} {tr : TemaRegra} {i : Nat} {a : TemaRegra}
    {j : Nat} (ha : (cadeiaAlternativas s tr)[i]? = some a)
    (halt : a.alternativa_id = some j) (hmiss : temaRegraMap s j = none) :
    (cadeiaAlternativas s tr)[i + 1]? = none := by
  cases hb : (cadeiaAlternativas s tr)[i + 1]? with
  | none => rfl
  | some b =>
    obtain ⟨j', hj', hmap⟩ := cadeia_succ ha hb
    rw [halt] at hj'
    obtain rfl : j = j' := by simpa using hj'
    rw [hmiss] at hmap
    exact absurd hmap (by simp)

/-- A link whose `alternativa_id` was already visited ends the chain
(the repeated node is excluded from the output). -/
lemma cadeia_stop_visited {s : Store} {tr : TemaRegra} {i : Nat} {a : TemaRegra}
    {j : Nat} (ha : (cadeiaAlternativas s tr)[i]? = some a)
    (halt : a.alternativa_id = some j)
    (hvis : j ∈ ((cadeiaAlternativas s tr).take (i + 1)).map (fun t => t.id)) :
    (cadeiaAlternativas s tr)[i + 1]? = none := by
  cases hb : (cadeiaAlternativas s tr)[i + 1]? with
  | none => rfl
  | some b =>
    obtain ⟨j', hj', hmap⟩ := cadeia_succ ha hb
    rw [halt] at hj'
    obtain rfl : j = j' := by simpa using hj'
    set ids := (cadeiaAlternativas s tr).map (fun t => t.id) with hids
    obtain ⟨k, hk⟩ := List.getElem?_of_mem hvis
    have hklt : k < i + 1 := by
      have := List.getElem?_eq_some.mp hk
      have hlen := this.1
      have hle : (List.take (i + 1) (cadeiaAlternativas s tr)).length ≤ i + 1 :=
        by simp [List.length_take_le]
      calc k < (((cadeiaAlternativas s tr).take (i + 1)).map (fun t => t.id)).length := hlen
        _ ≤ i + 1 := by simp only [List.length_map]; exact hle
    have hk' : ids[k]? = some j := by
      have heq : (((cadeiaAlternativas s tr).take (i + 1)).map (fun t => t.id))[k]?
          = ids[k]? := by
        rw [hids]
        simp [List.getElem?_map, List.getElem?_take, hklt]
      rw [← heq, hk]
    have hib : ids[i + 1]? = some j := by
      rw [hids]
      simp [List.getElem?_map, hb, temaRegraMap_id hmap]
    have hkin : k < ids.length := (List.getElem?_eq_some.mp hk').1
    have : k = i + 1 := List.getElem?_inj hkin (cadeia_nodup s tr) (hk'.trans hib.symm)
    omega

lemma cadeia_alt_none {s : Store} {tr : TemaRegra}
    (halt : tr.alternativa_id = none) : cadeiaAlternativas s tr = [tr] := by
  unfold cadeiaAlternativas
  exact cadeiaGo_cons_none (List.not_mem_nil _) halt

/-- Bounded traversal: the chain never exceeds the number of stored
links. -/
lemma cadeia_length_le (s : Store) (tr : TemaRegra) (h : tr ∈ s.temasRegras) :
    (cadeiaAlternativas s tr).length ≤ s.temasRegras.length := by
  set l := cadeiaAlternativas s tr with hl
  set ids := l.map (fun t => t.id) with hids
  have hnodup : ids.Nodup := cadeia_nodup s tr
  have hsub : ids.toFinset ⊆ trIds s := by
    intro x hx
    rw [List.mem_toFinset, hids, List.mem_map] at hx
    obtain ⟨t, ht, rfl⟩ := hx
    have : t ∈ s.temasRegras :=
      cadeiaGo_subset s _ _ _ (fun c hc => by cases hc; exact h) t ht
    exact mem_trIds_id this
  calc l.length = ids.length := by rw [hids, List.length_map]
    _ = ids.toFinset.card := (List.toFinset_card_of_nodup hnodup).symm
    _ ≤ (trIds s).card := Finset.card_le_card hsub
    _ ≤ s.temasRegras.length := trIds_card_le s

/-! ### Claim C4 -/

/-- C4: `cadeia_alternativas` returns an ordered sequence `[L0, ..., Lk]`
in which `L0` is the input link, each `L(i+1)` is `L(i)`'s alternativa,
and no link id appears twice; a link with no alternativa ends the chain,
a link whose alternativa id was already visited ends the chain with the
repeated node excluded, and a link whose alternativa is null yields a
chain of length 1. -/
theorem c4_cadeia_contract (s : Store) (tr : TemaRegra) :
    (cadeiaAlternativas s tr)[0]? = some tr
    ∧ (∀ i a b, (cadeiaAlternativas s tr)[i]? = some a →
        (cadeiaAlternativas s tr)[i + 1]? = some b →
        ∃ j, a.alternativa_id = some j ∧ temaRegraMap s j = some b)
    ∧ ((cadeiaAlternativas s tr).map (fun t => t.id)).Nodup
    ∧ (∀ i a, (cadeiaAlternativas s tr)[i]? = some a → a.alternativa_id = none →
        (cadeiaAlternativas s tr)[i + 1]? = none)
    ∧ (∀ i a j, (cadeiaAlternativas s tr)[i]? = some a → a.alternativa_id = some j →
        j ∈ ((cadeiaAlternativas s tr).take (i + 1)).map (fun t => t.id) →
        (cadeiaAlternativas s tr)[i + 1]? = none)
    ∧ (tr.alternativa_id = none → cadeiaAlternativas s tr = [tr]) :=
  ⟨cadeia_head s tr,
   fun _ _ _ ha hb => cadeia_succ ha hb,
   cadeia_nodup s tr,
   fun _ _ ha halt => cadeia_stop_none ha halt,
   fun _ _ _ ha halt hvis => cadeia_stop_visited ha halt hvis,
   fun halt => cadeia_alt_none halt⟩

/-- Witness for C4 on the spec's scenario store: the chain of link 1
starts at link 1, has distinct ids, and link 2 (null alternativa) has a
chain of length 1. -/
theorem c4_cadeia_contract_witness :
    (cadeiaAlternativas storeC6 ⟨1, 1, 1, some 2⟩)[0]? = some ⟨1, 1, 1, some 2⟩
    ∧ ((cadeiaAlternativas storeC6 ⟨1, 1, 1, some 2⟩).map (fun t => t.id)).Nodup
    ∧ cadeiaAlternativas storeC6 ⟨2, 2, 2, none⟩ = [⟨2, 2, 2, none⟩] :=
  ⟨(c4_cadeia_contract storeC6 ⟨1, 1, 1, some 2⟩).1,
   (c4_cadeia_contract storeC6 ⟨1, 1, 1, some 2⟩).2.2.1,
   (c4_cadeia_contract storeC6 ⟨2, 2, 2, none⟩).2.2.2.2.2 (by decide)⟩

/-! ### Claim C10 -/

/-- C10: when a link's `alternativa_id` is non-null but refers to no
stored link, the resolver ends the chain at that link: the link holding
the dangling reference is returned (it sits at position `i`) and nothing
follows it; no error is raised (the resolver is a total function). -/
theorem c10_dangling_reference (s : Store) (tr : TemaRegra) :
    ∀ i a j, (cadeiaAlternativas s tr)[i]? = some a →
      a.alternativa_id = some j → temaRegraMap s j = none →
      a ∈ cadeiaAlternativas s tr ∧ (cadeiaAlternativas s tr)[i + 1]? = none :=
  fun _ _ _ ha halt hmiss =>
    ⟨List.getElem?_mem ha, cadeia_stop_dangling ha halt hmiss⟩

/-- Witness for C10: in `storeC10`, link 1 points at the nonexistent
link 7 and its chain is exactly `[link 1]`. -/
theorem c10_dangling_reference_witness :
    (⟨1, 1, 1, some 7⟩ : TemaRegra) ∈ cadeiaAlternativas storeC10 ⟨1, 1, 1, some 7⟩
    ∧ (cadeiaAlternativas storeC10 ⟨1, 1, 1, some 7⟩)[1]? = none :=
  c10_dangling_reference storeC10 ⟨1, 1, 1, some 7⟩ 0 ⟨1, 1, 1, some 7⟩ 7
    (by decide) (by decide) (by decide)

/-! ### Claim C5 -/

/-- C5: for every store, including stores whose alternativa graph
contains cycles, both walks are bounded by the number of stored links:
the resolver's chain never exceeds `|temas_regras|` entries and both
loops are already stable at `|temas_regras| + 1` iterations of fuel
(granting any additional fuel changes nothing). -/
theorem c5_bounded_termination (s : Store) (tr : TemaRegra) (aId bId : Nat)
    (h : tr ∈ s.temasRegras) :
    (cadeiaAlternativas s tr).length ≤ s.temasRegras.length
    ∧ (∀ extra, cadeiaAlternativas s tr
        = cadeiaAlternativasGo s [] (some tr) (s.temasRegras.length + 1 + extra))
    ∧ (∀ extra, wouldCreateCycle s aId bId
        = verificaCicloLoop s [aId] (temaRegraMap s bId)
            (s.temasRegras.length + 1 + extra)) := by
  refine ⟨cadeia_length_le s tr h, fun extra => ?_, fun extra => ?_⟩
  · have hcard : (trIds s \ ([] : List Nat).toFinset).card ≤ s.temasRegras.length := by
      calc (trIds s \ ([] : List Nat).toFinset).card
          ≤ (trIds s).card := Finset.card_le_card (Finset.sdiff_subset)
        _ ≤ s.temasRegras.length := trIds_card_le s
    exact cadeiaGo_fuel_stable s _ _ [] (some tr)
      (fun c hc => by cases hc; exact h) (by omega) (by omega)
  · have hcard : (trIds s \ ([aId] : List Nat).toFinset).card
        ≤ s.temasRegras.length := by
      calc (trIds s \ ([aId] : List Nat).toFinset).card
          ≤ (trIds s).card := Finset.card_le_card (Finset.sdiff_subset)
        _ ≤ s.temasRegras.length := trIds_card_le s
    exact cicloLoop_fuel_stable s _ _ [aId] (temaRegraMap s bId) (by omega) (by omega)

/-- Witness for C5 on the two-link alternativa cycle `storeC5`. -/
theorem c5_bounded_termination_witness :
    (cadeiaAlternativas storeC5 ⟨1, 1, 1, some 2⟩).length ≤ storeC5.temasRegras.length
    ∧ cadeiaAlternativas storeC5 ⟨1, 1, 1, some 2⟩
        = cadeiaAlternativasGo storeC5 [] (some ⟨1, 1, 1, some 2⟩)
            (storeC5.temasRegras.length + 1 + 5)
    ∧ wouldCreateCycle storeC5 1 2
        = verificaCicloLoop storeC5 [1] (temaRegraMap storeC5 2)
            (storeC5.temasRegras.length + 1 + 5) :=
  ⟨(c5_bounded_termination storeC5 ⟨1, 1, 1, some 2⟩ 1 2 (by decide)).1,
   (c5_bounded_termination storeC5 ⟨1, 1, 1, some 2⟩ 1 2 (by decide)).2.1 5,
   (c5_bounded_termination storeC5 ⟨1, 1, 1, some 2⟩ 1 2 (by decide)).2.2 5⟩

/-! ### Claim C2 -/

/-- C2 (code bug): submitting an edit that sets link 1's alternativa to
link 1 itself is NOT rejected by the cycle check — the check walks the
pre-edit chain of link 1 (which is empty, since its alternativa is null)
and finds nothing, so the handler persists the self-loop `1 → 1`.  The
spec says the self-reference is rejected at the edit boundary before it
is ever persisted. -/
theorem c2_self_loop_persisted :
    wouldCreateCycle storeC2 1 1 = false
    ∧ editarTemaRegra storeC2 1 1 1 (some 1)
        = EditResult.committed ⟨[], [], [⟨1, 1, 1, some 1⟩], []⟩ := by
  constructor <;> decide

/-! ### Claim C3 -/

/-- C3 counterexample: the edit of link 1 in `storeC3` submits a changed
`tema_id` (11 instead of the stored 10) together with the cyclic
alternativa 2.  The edit is rejected, the committed store is untouched,
but the record rendered back into the edit form carries the submitted
`tema_id = 11`, not the prior state's `tema_id = 10`: the form does not
reflect the prior state. -/
theorem c3_counterexample :
    editarTemaRegra storeC3 1 11 20 (some 2)
      = EditResult.cycleRejected storeC3 ⟨1, 11, 20, none⟩
    ∧ temaRegraMap storeC3 1 = some ⟨1, 10, 20, none⟩
    ∧ (⟨1, 11, 20, none⟩ : TemaRegra).tema_id ≠
        (⟨1, 10, 20, none⟩ : TemaRegra).tema_id := by
  refine ⟨by decide, by decide, by decide⟩

/-- C3 amended: when the cycle check rejects an edit, no partial write
reaches the committed store (it is returned unchanged, so the stored
link's tema, regra and alternativa are their pre-edit values), and the
redisplayed form shows the pre-edit `alternativa_id` but the *submitted*
`tema_id` and `regra_id` (which the handler overwrites before running
the check). -/
theorem c3_amended_no_stray_write (s : Store) (trId ftema fregra : Nat)
    (falt : Option Nat) (st : Store) (fs : TemaRegra)
    (h : editarTemaRegra s trId ftema fregra falt = EditResult.cycleRejected st fs) :
    st = s
    ∧ ∃ tr, temaRegraMap s trId = some tr
        ∧ fs.id = tr.id
        ∧ fs.alternativa_id = tr.alternativa_id
        ∧ fs.tema_id = ftema
        ∧ fs.regra_id = fregra := by
  unfold editarTemaRegra at h
  cases hmap : temaRegraMap s trId with
  | none => rw [hmap] at h; exact absurd h (by simp)
  | some tr =>
    rw [hmap] at h
    cases falt with
    | none => exact absurd h (by simp)
    | some altId =>
      by_cases hcyc : wouldCreateCycle s trId altId
      · simp only [hcyc, if_true, EditResult.cycleRejected.injEq] at h
        obtain ⟨rfl, rfl⟩ := h
        exact ⟨rfl, tr, rfl, rfl, rfl, rfl, rfl⟩
      · simp [hcyc] at h

/-- Witness for C3 amended, at the counterexample input. -/
theorem c3_amended_no_stray_write_witness :
    storeC3 = storeC3
    ∧ ∃ tr, temaRegraMap storeC3 1 = some tr
        ∧ (⟨1, 11, 20, none⟩ : TemaRegra).id = tr.id
        ∧ (⟨1, 11, 20, none⟩ : TemaRegra).alternativa_id = tr.alternativa_id
        ∧ (⟨1, 11, 20, none⟩ : TemaRegra).tema_id = 11
        ∧ (⟨1, 11, 20, none⟩ : TemaRegra).regra_id = 20 :=
  c3_amended_no_stray_write storeC3 1 11 20 (some 2) storeC3 ⟨1, 11, 20, none⟩
    (by decide)

/-! ### Acyclic stores: the walk, unchained -/

lemma temaRegraMap_ne_none_of_mem {s : Store} {i : Nat} (h : i ∈ trIds s) :
    temaRegraMap s i ≠ none := by
  intro hnone
  rw [trIds, List.mem_toFinset, List.mem_map] at h
  obtain ⟨tr, htr, hid⟩ := h
  have := List.find?_eq_none.mp hnone tr htr
  simp [hid] at this

/-- A chain whose head's alternativa dangles is a singleton. -/
lemma cadeia_alt_dangling {s : Store} {c : TemaRegra} {j : Nat}
    (halt : c.alternativa_id = some j) (hmiss : temaRegraMap s j = none) :
    cadeiaAlternativas s c = [c] := by
  unfold cadeiaAlternativas
  rw [cadeiaGo_cons_some (List.not_mem_nil _) halt, hmiss, cadeiaGo_none]

/-- Under a rank certificate, the visited set and the fuel are
irrelevant to the walk as long as every visited id outranks the current
record and the fuel is sufficient: the guard never fires. -/
lemma cadeiaGo_vis_irrelevant {s : Store} {rank : Nat → Nat} (hr : RankOk s rank) :
    ∀ (f1 f2 : Nat) (vis1 vis2 : List Nat) (c : TemaRegra), c ∈ s.temasRegras →
    (∀ v ∈ vis1, rank c.id < rank v) → (∀ v ∈ vis2, rank c.id < rank v) →
    (trIds s \ vis1.toFinset).card < f1 → (trIds s \ vis2.toFinset).card < f2 →
    cadeiaAlternativasGo s vis1 (some c) f1 = cadeiaAlternativasGo s vis2 (some c) f2 := by
  intro f1
  induction f1 with
  | zero => intro f2 vis1 vis2 c _ _ _ h1 _; omega
  | succ g1 ih =>
    intro f2 vis1 vis2 c hc hv1 hv2 h1 h2
    have hg1 : c.id ∉ vis1 := fun hmem => absurd (hv1 _ hmem) (by omega)
    have hg2 : c.id ∉ vis2 := fun hmem => absurd (hv2 _ hmem) (by omega)
    cases f2 with
    | zero => omega
    | succ g2 =>
      cases halt : c.alternativa_id with
      | none => rw [cadeiaGo_cons_none hg1 halt, cadeiaGo_cons_none hg2 halt]
      | some j =>
        rw [cadeiaGo_cons_some hg1 halt, cadeiaGo_cons_some hg2 halt]
        cases hmap : temaRegraMap s j with
        | none => rw [cadeiaGo_none, cadeiaGo_none]
        | some r =>
          have hrmem : r ∈ s.temasRegras := temaRegraMap_mem hmap
          have hrid : r.id = j := temaRegraMap_id hmap
          have hjlt : rank j < rank c.id := hr c hc j halt r hrmem hrid
          have hreq : rank r.id = rank j := by rw [hrid]
          have hv1' : ∀ v ∈ c.id :: vis1, rank r.id < rank v := by
            intro v hv
            rcases List.mem_cons.mp hv with rfl | hv
            · omega
            · have := hv1 v hv; omega
          have hv2' : ∀ v ∈ c.id :: vis2, rank r.id < rank v := by
            intro v hv
            rcases List.mem_cons.mp hv with rfl | hv
            · omega
            · have := hv2 v hv; omega
          have hm1 := measure_step (mem_trIds_id hc) hg1
          have hm2 := measure_step (mem_trIds_id hc) hg2
          rw [ih g2 (c.id :: vis1) (c.id :: vis2) r hrmem hv1' hv2'
            (by omega) (by omega)]

/-- Under a rank certificate the full chain unfolds one step at a
time. -/
lemma cadeia_unfold {s : Store} {rank : Nat → Nat} (hr : RankOk s rank)
    {c : TemaRegra} {j : Nat} {r : TemaRegra} (hc : c ∈ s.temasRegras)
    (halt : c.alternativa_id = some j) (hmap : temaRegraMap s j = some r) :
    cadeiaAlternativas s c = c :: cadeiaAlternativas s r := by
  have hrmem : r ∈ s.temasRegras := temaRegraMap_mem hmap
  have hrid : r.id = j := temaRegraMap_id hmap
  have hjlt : rank j < rank c.id := hr c hc j halt r hrmem hrid
  have hreq : rank r.id = rank j := by rw [hrid]
  have hn : 0 < s.temasRegras.length := List.length_pos.mpr (by
    intro hnil; rw [hnil] at hc; exact absurd hc (List.not_mem_nil _))
  have hcard : (trIds s).card ≤ s.temasRegras.length := trIds_card_le s
  unfold cadeiaAlternativas
  rw [cadeiaGo_cons_some (List.not_mem_nil _) halt, hmap]
  have hm : (trIds s \ ([c.id] : List Nat).toFinset).card < (trIds s).card := by
    have := @measure_step s [] c.id (mem_trIds_id hc) (List.not_mem_nil _)
    simpa using this
  have h0 : (trIds s \ (([] : List Nat)).toFinset).card = (trIds s).card := by simp
  rw [cadeiaGo_vis_irrelevant hr s.temasRegras.length (s.temasRegras.length + 1)
    [c.id] [] r hrmem
    (by intro v hv; rcases List.mem_cons.mp hv with rfl | hv; · omega
        · exact absurd hv (List.not_mem_nil _))
    (by intro v hv; exact absurd hv (List.not_mem_nil _))
    (by omega) (by rw [h0]; omega)]

lemma walkTargets_alt_none {s : Store} {c : TemaRegra}
    (halt : c.alternativa_id = none) : walkTargets s c = [] := by
  unfold walkTargets
  rw [cadeia_alt_none halt]
  simp [List.filterMap_cons, halt]

lemma walkTargets_alt_dangling {s : Store} {c : TemaRegra} {j : Nat}
    (halt : c.alternativa_id = some j) (hmiss : temaRegraMap s j = none) :
    walkTargets s c = [j] := by
  unfold walkTargets
  rw [cadeia_alt_dangling halt hmiss]
  simp [List.filterMap_cons, halt]

lemma walkTargets_unfold {s : Store} {rank : Nat → Nat} (hr : RankOk s rank)
    {c : TemaRegra} {j : Nat} {r : TemaRegra} (hc : c ∈ s.temasRegras)
    (halt : c.alternativa_id = some j) (hmap : temaRegraMap s j = some r) :
    walkTargets s c = j :: walkTargets s r := by
  unfold walkTargets
  rw [cadeia_unfold hr hc halt hmap]
  simp [List.filterMap_cons, halt]

/-- The first alternativa id is always among the walk's targets. -/
lemma walkTargets_head {s : Store} {rank : Nat → Nat} (hr : RankOk s rank)
    {c : TemaRegra} {j : Nat} (hc : c ∈ s.temasRegras)
    (halt : c.alternativa_id = some j) : j ∈ walkTargets s c := by
  cases hmap : temaRegraMap s j with
  | none => rw [walkTargets_alt_dangling halt hmap]; exact List.mem_singleton_self j
  | some r => rw [walkTargets_unfold hr hc halt hmap]; exact List.mem_cons_self _ _

/-- Every in-store target of the walk from `c` sits strictly below `c`
in rank. -/
lemma walkTargets_rank_lt {s : Store} {rank : Nat → Nat} (hr : RankOk s rank) :
    ∀ (n : Nat) (c : TemaRegra), rank c.id = n → c ∈ s.temasRegras →
    ∀ t ∈ walkTargets s c, t ∈ trIds s → rank t < rank c.id := by
  intro n
  induction n using Nat.strong_induction_on with
  | _ n ih =>
    intro c hn hc t ht htids
    cases halt : c.alternativa_id with
    | none => rw [walkTargets_alt_none halt] at ht; exact absurd ht (List.not_mem_nil _)
    | some j =>
      cases hmap : temaRegraMap s j with
      | none =>
        rw [walkTargets_alt_dangling halt hmap] at ht
        obtain rfl : t = j := List.mem_singleton.mp ht
        exact absurd hmap (temaRegraMap_ne_none_of_mem htids)
      | some r =>
        have hrmem : r ∈ s.temasRegras := temaRegraMap_mem hmap
        have hrid : r.id = j := temaRegraMap_id hmap
        have hjlt : rank j < rank c.id := hr c hc j halt r hrmem hrid
        have hreq : rank r.id = rank j := by rw [hrid]
        rw [walkTargets_unfold hr hc halt hmap] at ht
        rcases List.mem_cons.mp ht with rfl | ht'
        · exact hjlt
        · have hlt : rank t < rank r.id :=
            ih (rank r.id) (by omega) r rfl hrmem t ht' htids
          omega

/-- Every id on the chain of `c` ranks at most `c`. -/
lemma cadeia_rank_le {s : Store} {rank : Nat → Nat} (hr : RankOk s rank) :
    ∀ (fuel : Nat) (vis : List Nat) (c : TemaRegra), c ∈ s.temasRegras →
    ∀ x ∈ cadeiaAlternativasGo s vis (some c) fuel, rank x.id ≤ rank c.id := by
  intro fuel
  induction fuel with
  | zero => intro vis c _ x hx; rw [cadeiaGo_zero] at hx; exact absurd hx (List.not_mem_nil _)
  | succ f ih =>
    intro vis c hc x hx
    by_cases hg : c.id ∈ vis
    · rw [cadeiaGo_guard _ hg] at hx; exact absurd hx (List.not_mem_nil _)
    · cases halt : c.alternativa_id with
      | none =>
        rw [cadeiaGo_cons_none hg halt] at hx
        obtain rfl : x = c := List.mem_singleton.mp hx
        exact le_refl _
      | some j =>
        rw [cadeiaGo_cons_some hg halt] at hx
        rcases List.mem_cons.mp hx with rfl | hx'
        · exact le_refl _
        · cases hmap : temaRegraMap s j with
          | none =>
            rw [hmap, cadeiaGo_none] at hx'
            exact absurd hx' (List.not_mem_nil _)
          | some r =>
            rw [hmap] at hx'
            have hrmem : r ∈ s.temasRegras := temaRegraMap_mem hmap
            have hrid : r.id = j := temaRegraMap_id hmap
            have hjlt : rank j < rank c.id := hr c hc j halt r hrmem hrid
            have hreq : rank r.id = rank j := by rw [hrid]
            have := ih (c.id :: vis) r hrmem x hx'
            omega

/-- The core characterization of the edit-time cycle check on acyclic
stores: with enough fuel it signals exactly when some alternativa id on
the forward walk from `c` lies in the initial visited set. -/
lemma cicloLoop_iff_walkTargets {s : Store} {rank : Nat → Nat} (hr : RankOk s rank) :
    ∀ (fuel : Nat) (vis : List Nat) (c : TemaRegra), c ∈ s.temasRegras →
    (trIds s \ vis.toFinset).card < fuel →
    (verificaCicloLoop s vis (some c) fuel = true ↔ ∃ t ∈ walkTargets s c, t ∈ vis) := by
  intro fuel
  induction fuel with
  | zero => intro vis c _ hcard; omega
  | succ g ih =>
    intro vis c hc hcard
    cases halt : c.alternativa_id with
    | none =>
      rw [cicloLoop_alt_none _ halt, walkTargets_alt_none halt]
      simp
    | some a =>
      by_cases hv : a ∈ vis
      · rw [cicloLoop_hit _ halt hv]
        simp only [true_iff]
        exact ⟨a, walkTargets_head hr hc halt, hv⟩
      · rw [cicloLoop_step halt hv]
        cases hmap : temaRegraMap s a with
        | none =>
          rw [cicloLoop_none, walkTargets_alt_dangling halt hmap]
          simp [hv]
        | some r =>
          have hrmem : r ∈ s.temasRegras := temaRegraMap_mem hmap
          have hrid : r.id = a := temaRegraMap_id hmap
          have hm := measure_step (mem_trIds_of_temaRegraMap hmap) hv
          rw [ih (a :: vis) r hrmem (by omega),
            walkTargets_unfold hr hc halt hmap]
          constructor
          · rintro ⟨t, ht, htv⟩
            rcases List.mem_cons.mp htv with rfl | htv'
            · exfalso
              have hlt := walkTargets_rank_lt hr (rank r.id) r rfl hrmem t ht
                (by rw [← hrid] at hmap ⊢; exact mem_trIds_of_temaRegraMap hmap)
              rw [hrid] at hlt
              omega
            · exact ⟨t, List.mem_cons_of_mem _ ht, htv'⟩
          · rintro ⟨t, ht, htv⟩
            rcases List.mem_cons.mp ht with rfl | ht'
            · exact absurd htv hv
            · exact ⟨t, ht', List.mem_cons_of_mem _ htv⟩

/-- On acyclic stores, an in-store id is a target of the walk from `r`
exactly when it lies on `r`'s chain and differs from `r` itself. -/
lemma walkTargets_mem_iff {s : Store} {rank : Nat → Nat} (hr : RankOk s rank) :
    ∀ (n : Nat) (r : TemaRegra), rank r.id = n → r ∈ s.temasRegras →
    ∀ a, a ∈ trIds s →
    (a ∈ walkTargets s r ↔
      (a ∈ (cadeiaAlternativas s r).map (fun t => t.id) ∧ a ≠ r.id)) := by
  intro n
  induction n using Nat.strong_induction_on with
  | _ n ih =>
    intro r hn hrmem a ha
    cases halt : r.alternativa_id with
    | none =>
      rw [walkTargets_alt_none halt, cadeia_alt_none halt]
      simp
    | some j =>
      cases hmap : temaRegraMap s j with
      | none =>
        rw [walkTargets_alt_dangling halt hmap, cadeia_alt_dangling halt hmap]
        have hja : a ≠ j := by
          rintro rfl
          exact absurd hmap (temaRegraMap_ne_none_of_mem ha)
        simp [hja]
      | some r' =>
        have hr'mem : r' ∈ s.temasRegras := temaRegraMap_mem hmap
        have hr'id : r'.id = j := temaRegraMap_id hmap
        have hjlt : rank j < rank r.id := hr r hrmem j halt r' hr'mem hr'id
        have hreq : rank r'.id = rank j := by rw [hr'id]
        rw [walkTargets_unfold hr hrmem halt hmap, cadeia_unfold hr hrmem halt hmap]
        have hihr' := ih (rank r'.id) (by omega) r' rfl hr'mem a ha
        have hhead : r'.id ∈ (cadeiaAlternativas s r').map (fun t => t.id) := by
          have := cadeia_head s r'
          have hmem : r' ∈ cadeiaAlternativas s r' := List.getElem?_mem this
          exact List.mem_map_of_mem _ hmem
        have hchain_ne : ∀ x ∈ (cadeiaAlternativas s r').map (fun t => t.id),
            x ≠ r.id := by
          intro x hx
          rw [List.mem_map] at hx
          obtain ⟨t, ht, rfl⟩ := hx
          have hle : rank t.id ≤ rank r'.id := cadeia_rank_le hr _ [] r' hr'mem t ht
          intro hxr
          rw [hxr] at hle
          omega
        constructor
        · intro hmem0
          rcases List.mem_cons.mp hmem0 with rfl | haw
          · refine ⟨?_, ?_⟩
            · rw [List.map_cons]
              exact List.mem_cons_of_mem _ (by rw [← hr'id]; exact hhead)
            · rw [← hr'id]
              exact hchain_ne r'.id hhead
          · obtain ⟨hac, -⟩ := hihr'.mp haw
            exact ⟨by rw [List.map_cons]; exact List.mem_cons_of_mem _ hac,
              hchain_ne a hac⟩
        · rintro ⟨hac, hane⟩
          rw [List.map_cons, List.mem_cons] at hac
          rcases hac with rfl | hac
          · exact absurd rfl hane
          · by_cases haj : a = j
            · subst haj
              exact List.mem_cons_self _ _
            · refine List.mem_cons_of_mem _ (hihr'.mpr ⟨hac, ?_⟩)
              rw [hr'id]
              exact haj

/-! ### Claim C1 -/

/-- C1 counterexample: in `storeC1`, links 3 and 4 form a pre-existing
alternativa cycle and link 2 points into it.  Setting link 1's
alternativa to link 2 is rejected as a cycle conflict by the edit-time
check, yet the forward walk from link 2 (which visits links 2, 3, 4)
never reaches link 1 — so the check does not signal "iff the walk from B
reaches A". -/
theorem c1_counterexample :
    wouldCreateCycle storeC1 1 2 = true ∧ reachesForward storeC1 2 1 = false := by
  constructor <;> decide

/-- C1 amended: restricted to stores whose alternativa graph is
cycle-free (the spec's own standing invariant) and to distinct links
`a ≠ b`, the edit-time cycle check signals a conflict exactly when
walking the alternativa chain forward from `b` reaches `a`. -/
theorem c1_cycle_check_iff_reaches (s : Store) (a b : Nat)
    (hac : AcyclicAlt s) (hab : a ≠ b) (ha : a ∈ trIds s) (hb : b ∈ trIds s) :
    wouldCreateCycle s a b = reachesForward s b a := by
  obtain ⟨rank, hr⟩ := hac
  obtain ⟨rb, hrb⟩ : ∃ rb, temaRegraMap s b = some rb := by
    cases hmap : temaRegraMap s b with
    | none => exact absurd hmap (temaRegraMap_ne_none_of_mem hb)
    | some rb => exact ⟨rb, rfl⟩
  have hrbid : rb.id = b := temaRegraMap_id hrb
  have hrbmem : rb ∈ s.temasRegras := temaRegraMap_mem hrb
  have hcard : (trIds s \ ([a] : List Nat).toFinset).card
      < s.temasRegras.length + 1 := by
    have h1 : (trIds s \ ([a] : List Nat).toFinset).card ≤ (trIds s).card :=
      Finset.card_le_card Finset.sdiff_subset
    have h2 := trIds_card_le s
    omega
  have hiff := cicloLoop_iff_walkTargets hr (s.temasRegras.length + 1) [a]
    rb hrbmem hcard
  have hmiff := walkTargets_mem_iff hr (rank rb.id) rb rfl hrbmem a ha
  rw [wouldCreateCycle, hrb, reachesForward, hrb]
  apply Bool.coe_iff_coe.mp
  rw [hiff]
  constructor
  · rintro ⟨t, ht, htv⟩
    obtain rfl : t = a := by simpa using htv
    have hmem := (hmiff.mp ht).1
    simpa using hmem
  · intro hcont
    have hmem : a ∈ (cadeiaAlternativas s rb).map (fun t => t.id) := by
      simpa using hcont
    refine ⟨a, hmiff.mpr ⟨hmem, ?_⟩, by simp⟩
    rw [hrbid]
    exact hab

/-- Witness for the amended C1 on the acyclic store `storeC3` (link 2
points at link 1; the identity function certifies acyclicity): setting
link 1's alternativa to link 2 is checked against the walk from link 2,
which does reach link 1. -/
theorem c1_cycle_check_iff_reaches_witness :
    wouldCreateCycle storeC3 1 2 = reachesForward storeC3 2 1 :=
  c1_cycle_check_iff_reaches storeC3 1 2
    ⟨fun i => i, by
      intro tr htr j halt tr' htr' hid
      fin_cases htr <;> simp_all
      omega⟩
    (by decide) (by decide) (by decide)

/-! ### Helper lemmas: `enumFrom` and the etapa constructions -/

lemma enumFrom_getElem? {α : Type} : ∀ (l : List α) (i k : Nat),
    (enumFrom i l)[k]? = (l[k]?).map (fun a => (i + k, a)) := by
  intro l
  induction l with
  | nil => intro i k; simp [enumFrom]
  | cons a as ih =>
    intro i k
    cases k with
    | zero => simp [enumFrom]
    | succ m =>
      simp only [enumFrom, List.getElem?_cons_succ, ih (i + 1) m]
      have h : i + 1 + m = i + (m + 1) := by omega
      rw [h]

lemma mem_enumFrom_iff {α : Type} {i : Nat} {p : Nat × α} {l : List α} :
    p ∈ enumFrom i l ↔ ∃ k, p.1 = i + k ∧ l[k]? = some p.2 := by
  constructor
  · intro hp
    obtain ⟨k, hk⟩ := List.getElem?_of_mem hp
    rw [enumFrom_getElem?] at hk
    cases hl : l[k]? with
    | none => rw [hl] at hk; simp at hk
    | some b =>
      rw [hl] at hk
      have hk' : ((i + k, b) : Nat × α) = p := Option.some.inj hk
      refine ⟨k, ?_, ?_⟩
      · rw [← hk']
      · rw [← hk']
        exact hl
  · rintro ⟨k, h1, h2⟩
    have hk : (enumFrom i l)[k]? = some (i + k, p.2) := by
      rw [enumFrom_getElem?, h2]; rfl
    have := List.getElem?_mem hk
    obtain ⟨p1, p2⟩ := p
    simp only at h1
    rw [h1]
    exact this

lemma enumFrom_fst_pos {α : Type} {i : Nat} {p : Nat × α} {l : List α}
    (hp : p ∈ enumFrom i l) : i ≤ p.1 := by
  obtain ⟨k, hk, -⟩ := mem_enumFrom_iff.mp hp
  omega

lemma enumFrom_inj {α : Type} {i : Nat} {j : Nat} {a b : α} {l : List α}
    (ha : (j, a) ∈ enumFrom i l) (hb : (j, b) ∈ enumFrom i l) : a = b := by
  obtain ⟨k1, hk1, h1⟩ := mem_enumFrom_iff.mp ha
  obtain ⟨k2, hk2, h2⟩ := mem_enumFrom_iff.mp hb
  simp only at hk1 hk2 h1 h2
  obtain rfl : k1 = k2 := by omega
  exact Option.some.inj (h1.symm.trans h2)

lemma mkEtapas_getElem? (s : Store) (registro : DiaComunicacao) (dv idx : Nat)
    (cadeia : List TemaRegra) (k : Nat) :
    (mkEtapas s registro dv idx cadeia)[k]?
      = (cadeia[k]?).map (fun L => mkEtapa s registro dv idx k L) := by
  unfold mkEtapas
  rw [List.getElem?_map, enumFrom_getElem?]
  cases cadeia[k]? <;> simp

lemma mkEtapa_nivel (s : Store) (registro : DiaComunicacao) (dv idx nivel : Nat)
    (L : TemaRegra) : (mkEtapa s registro dv idx nivel L).nivel = nivel := rfl

lemma mkEtapa_msgId (s : Store) (registro : DiaComunicacao) (dv idx nivel : Nat)
    (L : TemaRegra) :
    (mkEtapa s registro dv idx nivel L).msgId = NodeId.stMsg dv idx nivel := rfl

lemma mkEtapa_entryId (s : Store) (registro : DiaComunicacao) (dv idx nivel : Nat)
    (L : TemaRegra) :
    (mkEtapa s registro dv idx nivel L).entryId
      = if (mkEtapa s registro dv idx nivel L).temRegra then NodeId.stEntry dv idx nivel
        else NodeId.stMsg dv idx nivel := rfl

lemma mkEtapa_regra (s : Store) (registro : DiaComunicacao) (dv idx nivel : Nat)
    (L : TemaRegra) :
    (mkEtapa s registro dv idx nivel L).regra
      = sanitize
          (match regraMap s L.regra_id with
           | some r => r.descricao
           | none => "") "" := rfl

lemma mkEtapa_tema (s : Store) (registro : DiaComunicacao) (dv idx nivel : Nat)
    (L : TemaRegra) :
    (mkEtapa s registro dv idx nivel L).tema
      = sanitize
          (match temaMap s L.tema_id with
           | some t => t.nome
           | none => registro.tema_nome) "Tema" := rfl

lemma mkEtapa_temRegra (s : Store) (registro : DiaComunicacao) (dv idx nivel : Nat)
    (L : TemaRegra) :
    (mkEtapa s registro dv idx nivel L).temRegra
      = (((mkEtapa s registro dv idx nivel L).regra != "")
          && (String.mk (pyLower (mkEtapa s registro dv idx nivel L).regra.data)
              != "sem regra")) := rfl

/-- Shape of every etapa in `mkEtapas`: its ids are the `ST` ids of its
own position. -/
lemma mkEtapas_shape {s : Store} {registro : DiaComunicacao} {dv idx : Nat}
    {cadeia : List TemaRegra} {e : Etapa}
    (he : e ∈ mkEtapas s registro dv idx cadeia) :
    ∃ pos L, cadeia[pos]? = some L ∧ e = mkEtapa s registro dv idx pos L
      ∧ e.nivel = pos ∧ e.msgId = NodeId.stMsg dv idx pos
      ∧ e.entryId = (if e.temRegra then NodeId.stEntry dv idx pos
          else NodeId.stMsg dv idx pos) := by
  obtain ⟨pos, hpos⟩ := List.getElem?_of_mem he
  rw [mkEtapas_getElem?] at hpos
  cases hL : cadeia[pos]? with
  | none => rw [hL] at hpos; simp at hpos
  | some L =>
    rw [hL] at hpos
    have hpos' : mkEtapa s registro dv idx pos L = e := Option.some.inj hpos
    refine ⟨pos, L, hL, hpos'.symm, ?_, ?_, ?_⟩
    · rw [← hpos']
      rfl
    · rw [← hpos']
      rfl
    · rw [← hpos']
      rfl

/-! ### Helper lemmas: declaration and wiring blocks -/

lemma mem_declBlock_iff {e : Etapa} {x : Line} :
    x ∈ declBlock e ↔
      (x = Line.nodeMsg e.msgId e.tema
        ∨ (e.temRegra = true ∧ x = Line.nodeDecisao e.entryId (regraParaDecisao e.regra))) := by
  unfold declBlock
  by_cases h : e.temRegra
  · simp only [h, if_true, List.cons_append, List.nil_append, List.mem_cons,
      List.mem_singleton, true_and]
    tauto
  · simp [h]

lemma mem_etapaDeclLines_iff {etapas : List Etapa} {x : Line} :
    x ∈ etapaDeclLines etapas ↔ ∃ e ∈ etapas, x ∈ declBlock e := by
  unfold etapaDeclLines
  simp [List.mem_flatten]

lemma mem_etapaWireLines_iff {dv : Nat} {etapas : List Etapa} {x : Line} :
    x ∈ etapaWireLines dv etapas ↔
      ∃ pos e, etapas[pos]? = some e ∧ x ∈ wireBlock dv etapas pos e := by
  unfold etapaWireLines
  rw [List.mem_flatten]
  constructor
  · rintro ⟨L, hL, hx⟩
    rw [List.mem_map] at hL
    obtain ⟨p, hp, rfl⟩ := hL
    obtain ⟨k, h1, h2⟩ := mem_enumFrom_iff.mp hp
    refine ⟨p.1, p.2, ?_, hx⟩
    rw [h1]
    simpa using h2
  · rintro ⟨pos, e, he, hx⟩
    refine ⟨wireBlock dv etapas pos e, ?_, hx⟩
    rw [List.mem_map]
    exact ⟨(pos, e), mem_enumFrom_iff.mpr ⟨pos, by simp, he⟩, rfl⟩

/-- Every wiring line is an edge. -/
lemma wireBlock_edges {dv : Nat} {etapas : List Etapa} {pos : Nat} {e : Etapa}
    {x : Line} (hx : x ∈ wireBlock dv etapas pos e) :
    ∃ a b r, x = Line.edge a b r := by
  unfold wireBlock at hx
  by_cases h : e.temRegra
  · simp only [h, if_true] at hx
    rcases List.mem_append.mp hx with hx | hx
    · rcases List.mem_append.mp hx with hx | hx
      · by_cases h0 : pos = 0
        · simp only [h0, if_true] at hx
          obtain rfl := List.mem_singleton.mp hx
          exact ⟨_, _, _, rfl⟩
        · simp [h0] at hx
      · obtain rfl := List.mem_singleton.mp hx
        exact ⟨_, _, _, rfl⟩
    · cases hnext : etapas[pos + 1]? with
      | none =>
        rw [hnext] at hx
        obtain rfl := List.mem_singleton.mp hx
        exact ⟨_, _, _, rfl⟩
      | some prox =>
        rw [hnext] at hx
        obtain rfl := List.mem_singleton.mp hx
        exact ⟨_, _, _, rfl⟩
  · simp only [h] at hx
    by_cases h0 : pos = 0
    · simp only [h0, if_true] at hx
      obtain rfl := List.mem_singleton.mp hx
      exact ⟨_, _, _, rfl⟩
    · simp [h0] at hx

/-! ### Helper lemmas: `registroLines` and the assembled diagram -/

lemma registroLines_none {s : Store} {dv idx : Nat} {registro : DiaComunicacao}
    (h : temaRegraMap s registro.tema_regra_id = none) :
    registroLines s dv idx registro = ([], []) := by
  unfold registroLines
  rw [h]

lemma cadeia_ne_nil (s : Store) (tr : TemaRegra) : cadeiaAlternativas s tr ≠ [] := by
  intro hnil
  have := cadeia_head s tr
  rw [hnil] at this
  simp at this

lemma registroLines_found {s : Store} {dv idx : Nat} {registro : DiaComunicacao}
    {tr : TemaRegra} (h : temaRegraMap s registro.tema_regra_id = some tr) :
    registroLines s dv idx registro
      = (etapaDeclLines (mkEtapas s registro dv idx (cadeiaAlternativas s tr))
          ++ etapaWireLines dv (mkEtapas s registro dv idx (cadeiaAlternativas s tr)),
         etapaDecisionIds (mkEtapas s registro dv idx (cadeiaAlternativas s tr))) := by
  unfold registroLines
  rw [h]
  simp [cadeia_ne_nil s tr]

/-- Unfolding of the generator when at least one day exists. -/
lemma gerarLines_of_ne {s : Store} (h : orderedDays s ≠ []) :
    gerarLines s
      = [Line.flowchartHeader] ++ dayDeclLines (orderedDays s)
        ++ [Line.nodeDia fimNodeId "Fim"]
        ++ spineEdges (orderedDays s) ++ lastEdgeLines (orderedDays s)
        ++ chainLinesOf s (orderedDays s)
        ++ (if dayNodesOf (orderedDays s) = [] then []
            else [Line.classDefDia, Line.classAssign (dayNodesOf (orderedDays s)) "dia"])
        ++ (if decisionNodesOf s (orderedDays s) = [] then []
            else [Line.classDefDecisao,
              Line.classAssign (decisionNodesOf s (orderedDays s)) "decisao"]) := by
  unfold gerarLines
  simp [h]

/-- Unfolding of the generator when no day exists. -/
lemma gerarLines_of_empty {s : Store} (h : orderedDays s = []) :
    gerarLines s
      = [Line.flowchartHeader,
         Line.nodeMsg NodeId.sd "Sem dias cadastrados",
         Line.nodeDia fimNodeId "Fim",
         Line.edge NodeId.sd fimNodeId none,
         Line.classDefDia,
         Line.classAssign [fimNodeId] "dia"] := by
  unfold gerarLines
  simp [h]

lemma chainLines_mem_gerar {s : Store} {x : Line}
    (h : x ∈ chainLinesOf s (orderedDays s)) : x ∈ gerarLines s := by
  have hne : orderedDays s ≠ [] := by
    intro hnil
    rw [hnil] at h
    simp [chainLinesOf] at h
  rw [gerarLines_of_ne hne]
  simp only [List.mem_append]
  tauto

lemma spine_mem_gerar {s : Store} {x : Line}
    (hne : orderedDays s ≠ [])
    (h : x ∈ spineEdges (orderedDays s) ++ lastEdgeLines (orderedDays s)) :
    x ∈ gerarLines s := by
  rw [gerarLines_of_ne hne]
  simp only [List.mem_append]
  rcases List.mem_append.mp h with h | h <;> tauto

lemma registro_mem_chainLines {s : Store} {dv idx : Nat}
    {registro : DiaComunicacao} {x : Line}
    (hdv : dv ∈ orderedDays s) (hreg : (idx, registro) ∈ enumFrom 1 (porDia s dv))
    (hx : x ∈ (registroLines s dv idx registro).1) :
    x ∈ chainLinesOf s (orderedDays s) := by
  unfold chainLinesOf
  rw [List.mem_flatten]
  refine ⟨((blocosOf s dv).map Prod.fst).flatten, List.mem_map_of_mem _ hdv, ?_⟩
  rw [List.mem_flatten]
  refine ⟨(registroLines s dv idx registro).1, ?_, hx⟩
  rw [List.mem_map]
  refine ⟨registroLines s dv idx registro, ?_, rfl⟩
  unfold blocosOf
  exact List.mem_map_of_mem _ hreg

/-- Inversion for `chainLinesOf`: every chain line belongs to some
scheduled record whose link was found. -/
lemma chainLines_inv {s : Store} {x : Line}
    (h : x ∈ chainLinesOf s (orderedDays s)) :
    ∃ dv idx registro tr, dv ∈ orderedDays s
      ∧ (idx, registro) ∈ enumFrom 1 (porDia s dv)
      ∧ temaRegraMap s registro.tema_regra_id = some tr
      ∧ (x ∈ etapaDeclLines (mkEtapas s registro dv idx (cadeiaAlternativas s tr))
          ∨ x ∈ etapaWireLines dv (mkEtapas s registro dv idx (cadeiaAlternativas s tr))) := by
  unfold chainLinesOf at h
  rw [List.mem_flatten] at h
  obtain ⟨L, hL, hx⟩ := h
  rw [List.mem_map] at hL
  obtain ⟨dv, hdv, rfl⟩ := hL
  rw [List.mem_flatten] at hx
  obtain ⟨L2, hL2, hx⟩ := hx
  rw [List.mem_map] at hL2
  obtain ⟨pr, hpr, rfl⟩ := hL2
  unfold blocosOf at hpr
  rw [List.mem_map] at hpr
  obtain ⟨p, hp, rfl⟩ := hpr
  cases hmap : temaRegraMap s p.2.tema_regra_id with
  | none =>
    rw [registroLines_none hmap] at hx
    simp at hx
  | some tr =>
    rw [registroLines_found hmap] at hx
    refine ⟨dv, p.1, p.2, tr, hdv, by simpa using hp, hmap, ?_⟩
    simpa using List.mem_append.mp hx

/-- A hit on an emitted edge makes `edgeTouches` true. -/
lemma edgeTouches_of_mem {ls : List Line} {a b : NodeId} {r : Option String}
    {i : NodeId} (h : Line.edge a b r ∈ ls) (he : a = i ∨ b = i) :
    edgeTouches ls i = true := by
  unfold edgeTouches
  rw [List.any_eq_true]
  refine ⟨Line.edge a b r, h, ?_⟩
  rcases he with rfl | rfl <;> simp

lemma edgeTouches_mono {ls ls' : List Line} {i : NodeId}
    (hsub : ∀ x ∈ ls, x ∈ ls') (h : edgeTouches ls i = true) :
    edgeTouches ls' i = true := by
  unfold edgeTouches at h ⊢
  rw [List.any_eq_true] at h ⊢
  obtain ⟨l, hl, hp⟩ := h
  exact ⟨l, hsub l hl, hp⟩

/-- Every day value of a non-empty day list is touched by the spine or
the final edge into the terminal. -/
lemma day_touched : ∀ (l : List Nat) (n : Nat), n ∈ l →
    edgeTouches (spineEdges l ++ lastEdgeLines l) (NodeId.dia n) = true := by
  intro l
  induction l with
  | nil => intro n hn; exact absurd hn (List.not_mem_nil _)
  | cons a t ih =>
    intro n hn
    cases t with
    | nil =>
      obtain rfl : n = a := by simpa using hn
      refine edgeTouches_of_mem (a := NodeId.dia n) (b := fimNodeId) (r := none)
        ?_ (Or.inl rfl)
      simp [spineEdges, lastEdgeLines]
    | cons b t' =>
      rcases List.mem_cons.mp hn with rfl | hn'
      · refine edgeTouches_of_mem (a := NodeId.dia n) (b := NodeId.dia b) (r := none)
          ?_ (Or.inl rfl)
        simp [spineEdges, lastEdgeLines]
      · have htail := ih n hn'
        refine edgeTouches_mono ?_ htail
        intro x hx
        rcases List.mem_append.mp hx with hx | hx
        · apply List.mem_append_left
          simp only [spineEdges, List.zip_cons_cons, List.tail_cons, List.map_cons]
          exact List.mem_cons_of_mem _ (by simpa [spineEdges] using hx)
        · apply List.mem_append_right
          have : lastEdgeLines (a :: b :: t') = lastEdgeLines (b :: t') := by
            unfold lastEdgeLines
            rw [List.getLast?_cons_cons]
          rw [this]
          exact hx

/-! ### Helper lemmas: declared node identifiers -/

lemma mem_declaredNodeIds_iff {ls : List Line} {i : NodeId} :
    i ∈ declaredNodeIds ls ↔ ∃ l ∈ ls, declIdOf l = some i := by
  unfold declaredNodeIds
  exact List.mem_filterMap

lemma spineEdges_shape {days : List Nat} {x : Line} (hx : x ∈ spineEdges days) :
    ∃ a b, x = Line.edge (NodeId.dia a) (NodeId.dia b) none := by
  unfold spineEdges at hx
  rw [List.mem_map] at hx
  obtain ⟨p, -, rfl⟩ := hx
  exact ⟨p.1, p.2, rfl⟩

lemma lastEdgeLines_shape {days : List Nat} {x : Line} (hx : x ∈ lastEdgeLines days) :
    ∃ a, x = Line.edge (NodeId.dia a) fimNodeId none := by
  unfold lastEdgeLines at hx
  cases h : days.getLast? with
  | none => rw [h] at hx; exact absurd hx (List.not_mem_nil _)
  | some l =>
    rw [h] at hx
    obtain rfl := List.mem_singleton.mp hx
    exact ⟨l, rfl⟩

/-- Inversion of the declared node identifiers of a generated diagram:
each is the placeholder, the terminal, a day node of a scheduled day, or
an `ST` node of a schedule record whose link lookup succeeded. -/
lemma declared_id_cases {s : Store} {i : NodeId}
    (h : i ∈ declaredNodeIds (gerarLines s)) :
    (orderedDays s = [] ∧ (i = NodeId.sd ∨ i = fimNodeId))
    ∨ (orderedDays s ≠ []
        ∧ (i = fimNodeId
          ∨ (∃ n ∈ orderedDays s, i = NodeId.dia n)
          ∨ (∃ dv idx registro tr e, dv ∈ orderedDays s
              ∧ (idx, registro) ∈ enumFrom 1 (porDia s dv)
              ∧ temaRegraMap s registro.tema_regra_id = some tr
              ∧ e ∈ mkEtapas s registro dv idx (cadeiaAlternativas s tr)
              ∧ (i = e.msgId ∨ (e.temRegra = true ∧ i = e.entryId))))) := by
  obtain ⟨l, hl, hid⟩ := mem_declaredNodeIds_iff.mp h
  by_cases hdays : orderedDays s = []
  · left
    refine ⟨hdays, ?_⟩
    rw [gerarLines_of_empty hdays] at hl
    simp only [List.mem_cons, List.not_mem_nil, or_false] at hl
    rcases hl with rfl | rfl | rfl | rfl | rfl | rfl <;>
      simp [declIdOf] at hid <;> tauto
  · right
    refine ⟨hdays, ?_⟩
    rw [gerarLines_of_ne hdays] at hl
    simp only [List.append_assoc, List.mem_append] at hl
    rcases hl with hl | hl
    · simp only [List.mem_singleton] at hl
      rw [hl] at hid
      simp [declIdOf] at hid
    rcases hl with hl | hl
    · unfold dayDeclLines at hl
      rw [List.mem_map] at hl
      obtain ⟨n, hn, rfl⟩ := hl
      simp only [declIdOf, Option.some.injEq] at hid
      exact Or.inr (Or.inl ⟨n, hn, hid.symm⟩)
    rcases hl with hl | hl
    · simp only [List.mem_singleton] at hl
      rw [hl] at hid
      simp only [declIdOf, Option.some.injEq] at hid
      exact Or.inl hid.symm
    rcases hl with hl | hl
    · obtain ⟨a, b, rfl⟩ := spineEdges_shape hl
      simp [declIdOf] at hid
    rcases hl with hl | hl
    · obtain ⟨a, rfl⟩ := lastEdgeLines_shape hl
      simp [declIdOf] at hid
    rcases hl with hl | hl
    · obtain ⟨dv, idx, registro, tr, hdv, hreg, hmap, hdecl⟩ := chainLines_inv hl
      rcases hdecl with hdecl | hwire
      · obtain ⟨e, he, hblock⟩ := mem_etapaDeclLines_iff.mp hdecl
        rcases mem_declBlock_iff.mp hblock with rfl | ⟨htr, rfl⟩
        · simp only [declIdOf, Option.some.injEq] at hid
          exact Or.inr (Or.inr ⟨dv, idx, registro, tr, e, hdv, hreg, hmap, he,
            Or.inl hid.symm⟩)
        · simp only [declIdOf, Option.some.injEq] at hid
          exact Or.inr (Or.inr ⟨dv, idx, registro, tr, e, hdv, hreg, hmap, he,
            Or.inr ⟨htr, hid.symm⟩⟩)
      · obtain ⟨pos, e, -, hxw⟩ := mem_etapaWireLines_iff.mp hwire
        obtain ⟨a, b, r, rfl⟩ := wireBlock_edges hxw
        simp [declIdOf] at hid
    · rcases hl with hl | hl <;>
        [skip; skip] <;>
      · revert hl
        split <;> intro hl
        · exact absurd hl (List.not_mem_nil _)
        · simp only [List.mem_cons, List.not_mem_nil, or_false] at hl
          rcases hl with rfl | rfl <;> simp [declIdOf] at hid

/-! ### Helper lemmas: individual wiring edges -/

lemma wireBlock_sim {dv : Nat} {etapas : List Etapa} {pos : Nat} {e : Etapa}
    (h : e.temRegra = true) :
    Line.edge e.entryId e.msgId (some "Sim") ∈ wireBlock dv etapas pos e := by
  unfold wireBlock
  rw [h]
  simp only [if_true]
  refine List.mem_append_left _ (List.mem_append_right _ ?_)
  simp

lemma wireBlock_first_rule {dv : Nat} {etapas : List Etapa} {e : Etapa}
    (h : e.temRegra = true) :
    Line.edge (NodeId.dia dv) e.entryId none ∈ wireBlock dv etapas 0 e := by
  unfold wireBlock
  rw [h]
  simp

lemma wireBlock_first_norule {dv : Nat} {etapas : List Etapa} {e : Etapa}
    (h : e.temRegra = false) :
    Line.edge (NodeId.dia dv) e.msgId none ∈ wireBlock dv etapas 0 e := by
  unfold wireBlock
  rw [h]
  simp

lemma wireBlock_nao_next {dv : Nat} {etapas : List Etapa} {pos : Nat} {e prox : Etapa}
    (h : e.temRegra = true) (hnext : etapas[pos + 1]? = some prox) :
    Line.edge e.entryId prox.entryId (some "Não") ∈ wireBlock dv etapas pos e := by
  unfold wireBlock
  rw [h, hnext]
  simp

lemma wireBlock_nao_last {dv : Nat} {etapas : List Etapa} {pos : Nat} {e : Etapa}
    (h : e.temRegra = true) (hnext : etapas[pos + 1]? = none) :
    Line.edge e.entryId e.msgId (some "Não") ∈ wireBlock dv etapas pos e := by
  unfold wireBlock
  rw [h, hnext]
  simp

/-- Lines of a found record's wiring pass reach the final diagram. -/
lemma registro_wire_mem_gerar {s : Store} {dv idx : Nat}
    {registro : DiaComunicacao} {tr : TemaRegra} {x : Line}
    (hdv : dv ∈ orderedDays s) (hreg : (idx, registro) ∈ enumFrom 1 (porDia s dv))
    (hmap : temaRegraMap s registro.tema_regra_id = some tr)
    (hx : x ∈ etapaWireLines dv (mkEtapas s registro dv idx (cadeiaAlternativas s tr))) :
    x ∈ gerarLines s := by
  apply chainLines_mem_gerar
  apply registro_mem_chainLines hdv hreg
  rw [registroLines_found hmap]
  exact List.mem_append_right _ hx

/-- Lines of a found record's declaration pass reach the final diagram. -/
lemma registro_decl_mem_gerar {s : Store} {dv idx : Nat}
    {registro : DiaComunicacao} {tr : TemaRegra} {x : Line}
    (hdv : dv ∈ orderedDays s) (hreg : (idx, registro) ∈ enumFrom 1 (porDia s dv))
    (hmap : temaRegraMap s registro.tema_regra_id = some tr)
    (hx : x ∈ etapaDeclLines (mkEtapas s registro dv idx (cadeiaAlternativas s tr))) :
    x ∈ gerarLines s := by
  apply chainLines_mem_gerar
  apply registro_mem_chainLines hdv hreg
  rw [registroLines_found hmap]
  exact List.mem_append_left _ hx

lemma noConsecSemRegra_spec {etapas : List Etapa}
    (h : noConsecSemRegra etapas = true) :
    ∀ pos e prox, etapas[pos]? = some e → etapas[pos + 1]? = some prox →
      e.temRegra = true ∨ prox.temRegra = true := by
  intro pos e prox he hnext
  unfold noConsecSemRegra at h
  rw [List.all_eq_true] at h
  have hp : ((pos, e) : Nat × Etapa) ∈ enumFrom 0 etapas :=
    mem_enumFrom_iff.mpr ⟨pos, by simp, he⟩
  have hh := h (pos, e) hp
  simp only at hh
  rw [hnext] at hh
  simpa using hh

/-! ### Claim C7 -/

/-- C7 counterexample: in `storeC7`, day 1 schedules a chain of two
links that both carry the "Sem Regra" sentinel.  The second step's
message node `ST1_1_1_MSG` is declared but no emitted edge touches it —
the diagram has a dangling node. -/
theorem c7_counterexample :
    NodeId.stMsg 1 1 1 ∈ declaredNodeIds (gerarLines storeC7)
    ∧ edgeTouches (gerarLines storeC7) (NodeId.stMsg 1 1 1) = false := by
  constructor <;> decide

/-- C7 amended: provided that in every resolved chain no step without a
real rule is immediately followed by a further step, each declared node
(day, terminal, decision, message — and the placeholder in the empty
case) appears as an endpoint of at least one emitted edge. -/
theorem c7_no_dangling_nodes (s : Store)
    (hchain : ∀ dv ∈ orderedDays s, ∀ p ∈ enumFrom 1 (porDia s dv),
      ∀ tr ∈ (temaRegraMap s p.2.tema_regra_id).toList,
        noConsecSemRegra (mkEtapas s p.2 dv p.1 (cadeiaAlternativas s tr)) = true) :
    ∀ i ∈ declaredNodeIds (gerarLines s), edgeTouches (gerarLines s) i = true := by
  intro i hi
  rcases declared_id_cases hi with ⟨hdays, hcase⟩ | ⟨hdays, hcase⟩
  · have hedge : Line.edge NodeId.sd fimNodeId none ∈ gerarLines s := by
      rw [gerarLines_of_empty hdays]
      simp
    rcases hcase with rfl | rfl
    · exact edgeTouches_of_mem hedge (Or.inl rfl)
    · exact edgeTouches_of_mem hedge (Or.inr rfl)
  · rcases hcase with rfl | ⟨n, hn, rfl⟩ |
      ⟨dv, idx, registro, tr, e, hdv, hreg, hmap, he, hco⟩
    · obtain ⟨l, hlast⟩ : ∃ l, (orderedDays s).getLast? = some l := by
        cases hl : (orderedDays s).getLast? with
        | none => exact absurd (List.getLast?_eq_none_iff.mp hl) hdays
        | some l => exact ⟨l, rfl⟩
      have hedge : Line.edge (NodeId.dia l) fimNodeId none ∈ gerarLines s := by
        apply spine_mem_gerar hdays
        apply List.mem_append_right
        unfold lastEdgeLines
        rw [hlast]
        simp
      exact edgeTouches_of_mem hedge (Or.inr rfl)
    · exact edgeTouches_mono (fun x hx => spine_mem_gerar hdays hx)
        (day_touched (orderedDays s) n hn)
    · have hcons := hchain dv hdv (idx, registro) hreg tr (by simp [hmap])
      set etapas := mkEtapas s registro dv idx (cadeiaAlternativas s tr) with hetapas
      obtain ⟨pos, hpos⟩ := List.getElem?_of_mem he
      by_cases htr : e.temRegra
      · have hmem : Line.edge e.entryId e.msgId (some "Sim") ∈ etapaWireLines dv etapas :=
          mem_etapaWireLines_iff.mpr ⟨pos, e, hpos, wireBlock_sim htr⟩
        have hging := registro_wire_mem_gerar hdv hreg hmap hmem
        rcases hco with rfl | ⟨-, rfl⟩
        · exact edgeTouches_of_mem hging (Or.inr rfl)
        · exact edgeTouches_of_mem hging (Or.inl rfl)
      · have htrf : e.temRegra = false := by simpa using htr
        obtain rfl : i = e.msgId := by
          rcases hco with rfl | ⟨ht, -⟩
          · rfl
          · exact absurd ht (by simp [htrf])
        have hent : e.entryId = e.msgId := by
          obtain ⟨p, L, -, -, -, hmsg, hentry⟩ := mkEtapas_shape he
          rw [hentry, hmsg, htrf]
          simp
        cases pos with
        | zero =>
          have hmem : Line.edge (NodeId.dia dv) e.msgId none ∈ etapaWireLines dv etapas :=
            mem_etapaWireLines_iff.mpr ⟨0, e, hpos, wireBlock_first_norule htrf⟩
          exact edgeTouches_of_mem (registro_wire_mem_gerar hdv hreg hmap hmem)
            (Or.inr rfl)
        | succ q =>
          obtain ⟨e', hq⟩ : ∃ e', etapas[q]? = some e' := by
            cases hq : etapas[q]? with
            | none =>
              have h1 : etapas.length ≤ q := List.getElem?_eq_none_iff.mp hq
              have h2 : q + 1 < etapas.length :=
                (List.getElem?_eq_some.mp hpos).1
              omega
            | some e' => exact ⟨e', rfl⟩
          have htr' : e'.temRegra = true := by
            rcases noConsecSemRegra_spec hcons q e' e hq hpos with h | h
            · exact h
            · rw [htrf] at h; exact absurd h (by simp)
          have hmem : Line.edge e'.entryId e.entryId (some "Não")
              ∈ etapaWireLines dv etapas :=
            mem_etapaWireLines_iff.mpr ⟨q, e', hq, wireBlock_nao_next htr' hpos⟩
          rw [hent] at hmem
          exact edgeTouches_of_mem (registro_wire_mem_gerar hdv hreg hmap hmem)
            (Or.inr rfl)

/-- Witness for the amended C7 on the spec's scenario store: the second
step's message node is declared and wired. -/
theorem c7_no_dangling_nodes_witness :
    edgeTouches (gerarLines storeC6) (NodeId.stMsg 3 1 1) = true :=
  c7_no_dangling_nodes storeC6 (by decide) (NodeId.stMsg 3 1 1) (by decide)

/-! ### Helper lemmas: the ordered day spine -/

lemma orderedDays_sorted (s : Store) : (orderedDays s).Sorted (· ≤ ·) :=
  List.sorted_insertionSort _ _

lemma orderedDays_nodup (s : Store) : (orderedDays s).Nodup := by
  unfold orderedDays
  exact (List.perm_insertionSort _ _).symm.nodup (List.nodup_dedup _)

lemma orderedDays_strict {s : Store} {i a b : Nat}
    (ha : (orderedDays s)[i]? = some a) (hb : (orderedDays s)[i + 1]? = some b) :
    a < b := by
  obtain ⟨h1, e1⟩ := List.getElem?_eq_some.mp ha
  obtain ⟨h2, e2⟩ := List.getElem?_eq_some.mp hb
  have hle := (List.pairwise_iff_getElem.mp (orderedDays_sorted s)) i (i + 1)
    h1 h2 (by omega)
  have hne := (List.pairwise_iff_getElem.mp (orderedDays_nodup s)) i (i + 1)
    h1 h2 (by omega)
  rw [e1, e2] at hle hne
  omega

lemma spineEdges_mem_of_consec {days : List Nat} {i a b : Nat}
    (ha : days[i]? = some a) (hb : days[i + 1]? = some b) :
    Line.edge (NodeId.dia a) (NodeId.dia b) none ∈ spineEdges days := by
  unfold spineEdges
  have hzip : (days.zip days.tail)[i]? = some (a, b) :=
    List.getElem?_zip_eq_some.mpr ⟨ha, by rw [List.getElem?_tail]; exact hb⟩
  exact List.mem_map_of_mem _ (List.getElem?_mem hzip)

lemma spineEdges_inv {days : List Nat} {x : Line} (hx : x ∈ spineEdges days) :
    ∃ i a b, days[i]? = some a ∧ days[i + 1]? = some b
      ∧ x = Line.edge (NodeId.dia a) (NodeId.dia b) none := by
  unfold spineEdges at hx
  rw [List.mem_map] at hx
  obtain ⟨p, hp, rfl⟩ := hx
  obtain ⟨a, b⟩ := p
  obtain ⟨i, hi⟩ := List.getElem?_of_mem hp
  obtain ⟨h1, h2⟩ := List.getElem?_zip_eq_some.mp hi
  rw [List.getElem?_tail] at h2
  exact ⟨i, a, b, h1, h2, rfl⟩

/-- The ids produced for chain steps are never day-node ids. -/
lemma mkEtapas_ids_not_dia {s : Store} {registro : DiaComunicacao} {dv idx : Nat}
    {cadeia : List TemaRegra} {e : Etapa}
    (he : e ∈ mkEtapas s registro dv idx cadeia) :
    (∀ m, e.entryId ≠ NodeId.dia m) ∧ (∀ m, e.msgId ≠ NodeId.dia m) := by
  obtain ⟨pos, L, -, -, -, hmsg, hentry⟩ := mkEtapas_shape he
  constructor
  · intro m hcon
    rw [hentry] at hcon
    by_cases h : e.temRegra <;> simp [h] at hcon
  · intro m hcon
    rw [hmsg] at hcon
    simp at hcon

/-- No wiring edge points back into a day node. -/
lemma wire_edge_no_dia_target {s : Store} {registro : DiaComunicacao}
    {dv idx : Nat} {cadeia : List TemaRegra} {x : Line}
    (hx : x ∈ etapaWireLines dv (mkEtapas s registro dv idx cadeia)) :
    ∀ a b r, x = Line.edge a b r → ∀ m, b ≠ NodeId.dia m := by
  obtain ⟨pos, e, hpos, hxw⟩ := mem_etapaWireLines_iff.mp hx
  have hemem : e ∈ mkEtapas s registro dv idx cadeia := List.getElem?_mem hpos
  have hids := mkEtapas_ids_not_dia hemem
  intro a b r hedge m
  unfold wireBlock at hxw
  by_cases h : e.temRegra
  · simp only [h, if_true] at hxw
    rcases List.mem_append.mp hxw with hxw | hxw
    · rcases List.mem_append.mp hxw with hxw | hxw
      · by_cases h0 : pos = 0
        · simp only [h0, if_true, List.mem_singleton] at hxw
          rw [hxw] at hedge
          obtain ⟨-, rfl, -⟩ : a = NodeId.dia dv ∧ b = e.entryId ∧ r = none := by
            injection hedge.symm with h1 h2 h3
            exact ⟨h1, h2, h3⟩
          exact hids.1 m
        · simp [h0] at hxw
      · rw [List.mem_singleton.mp hxw] at hedge
        obtain ⟨-, rfl, -⟩ : a = e.entryId ∧ b = e.msgId ∧ r = some "Sim" := by
          injection hedge.symm with h1 h2 h3
          exact ⟨h1, h2, h3⟩
        exact hids.2 m
    · cases hnext : (mkEtapas s registro dv idx cadeia)[pos + 1]? with
      | none =>
        rw [hnext] at hxw
        rw [List.mem_singleton.mp hxw] at hedge
        obtain ⟨-, rfl, -⟩ : a = e.entryId ∧ b = e.msgId ∧ r = some "Não" := by
          injection hedge.symm with h1 h2 h3
          exact ⟨h1, h2, h3⟩
        exact hids.2 m
      | some prox =>
        rw [hnext] at hxw
        rw [List.mem_singleton.mp hxw] at hedge
        obtain ⟨-, rfl, -⟩ : a = e.entryId ∧ b = prox.entryId ∧ r = some "Não" := by
          injection hedge.symm with h1 h2 h3
          exact ⟨h1, h2, h3⟩
        exact (mkEtapas_ids_not_dia (List.getElem?_mem hnext)).1 m
  · simp only [h] at hxw
    by_cases h0 : pos = 0
    · simp [h0] at hxw
      rw [hxw] at hedge
      obtain ⟨-, rfl, -⟩ : a = NodeId.dia dv ∧ b = e.msgId ∧ r = none := by
        injection hedge.symm with h1 h2 h3
        exact ⟨h1, h2, h3⟩
      exact hids.2 m
    · simp [h0] at hxw

/-! ### Claim C8 -/

/-- C8 counterexample: nothing stops a schedule entry from using day
value 99999 — `storeC8` has one, and the generated diagram declares the
real day node and the terminal node with the *same* identifier `D99999`:
the terminal's identifier is not reserved. -/
theorem c8_counterexample :
    99999 ∈ orderedDays storeC8
    ∧ Line.nodeDia (NodeId.dia 99999) "Dia 99999" ∈ gerarLines storeC8
    ∧ Line.nodeDia fimNodeId "Fim" ∈ gerarLines storeC8
    ∧ NodeId.dia 99999 = fimNodeId :=
  ⟨by decide, by decide, by decide, rfl⟩

/-- C8 amended: day nodes are wired in strictly ascending order of day
value, the spine's only day-to-day edges are the consecutive ones plus
the final edge into the terminal `D99999`, and — provided no scheduled
day uses the value 99999 — the terminal's identifier differs from every
real day node's identifier. -/
theorem c8_day_spine (s : Store) :
    (∀ i a b, (orderedDays s)[i]? = some a → (orderedDays s)[i + 1]? = some b →
        a < b ∧ Line.edge (NodeId.dia a) (NodeId.dia b) none ∈ gerarLines s)
    ∧ (∀ l, (orderedDays s).getLast? = some l →
        Line.edge (NodeId.dia l) fimNodeId none ∈ gerarLines s)
    ∧ ((∀ d ∈ orderedDays s, d ≠ fimDiaValor) →
        ∀ d ∈ orderedDays s, NodeId.dia d ≠ fimNodeId)
    ∧ (∀ a b r, Line.edge (NodeId.dia a) (NodeId.dia b) r ∈ gerarLines s →
        r = none
        ∧ ((∃ i, (orderedDays s)[i]? = some a ∧ (orderedDays s)[i + 1]? = some b)
            ∨ ((orderedDays s).getLast? = some a ∧ b = fimDiaValor))) := by
  refine ⟨?_, ?_, ?_, ?_⟩
  · intro i a b ha hb
    have hne : orderedDays s ≠ [] := by
      intro hnil
      rw [hnil] at ha
      simp at ha
    exact ⟨orderedDays_strict ha hb,
      spine_mem_gerar hne (List.mem_append_left _ (spineEdges_mem_of_consec ha hb))⟩
  · intro l hl
    have hne : orderedDays s ≠ [] := by
      intro hnil
      rw [List.getLast?_eq_none_iff.mpr hnil] at hl
      simp at hl
    apply spine_mem_gerar hne
    apply List.mem_append_right
    unfold lastEdgeLines
    rw [hl]
    simp
  · intro hno d hd hcon
    have : d = fimDiaValor := by
      have := congrArg (fun n => match n with | NodeId.dia m => m | _ => 0) hcon
      simpa [fimNodeId] using this
    exact hno d hd this
  · intro a b r hmem
    by_cases hdays : orderedDays s = []
    · rw [gerarLines_of_empty hdays] at hmem
      simp only [List.mem_cons, List.not_mem_nil, or_false] at hmem
      exfalso
      rcases hmem with h | h | h | h | h | h
      · injection h
      · injection h
      · injection h
      · injection h with h1 h2 h3
        injection h1
      · injection h
      · injection h
    · rw [gerarLines_of_ne hdays] at hmem
      simp only [List.append_assoc, List.mem_append] at hmem
      rcases hmem with h | h
      · exfalso
        injection List.mem_singleton.mp h
      rcases hmem' : h with h | h
      · exfalso
        unfold dayDeclLines at h
        rw [List.mem_map] at h
        obtain ⟨n, -, hn⟩ := h
        injection hn
      rcases h with h | h
      · exfalso
        injection List.mem_singleton.mp h
      rcases h with h | h
      · obtain ⟨i, a', b', hia, hib, hedge⟩ := spineEdges_inv h
        obtain ⟨rfl, rfl, rfl⟩ : a = a' ∧ b = b' ∧ r = none := by
          injection hedge with h1 h2 h3
          injection h1 with h1
          injection h2 with h2
          exact ⟨h1, h2, h3⟩
        exact ⟨rfl, Or.inl ⟨i, hia, hib⟩⟩
      rcases h with h | h
      · unfold lastEdgeLines at h
        cases hl : (orderedDays s).getLast? with
        | none => rw [hl] at h; exact absurd h (List.not_mem_nil _)
        | some l' =>
          rw [hl] at h
          have heq := List.mem_singleton.mp h
          injection heq with h1 h2 h3
          injection h1 with h1
          injection h2 with h2
          refine ⟨h3, Or.inr ⟨?_, h2⟩⟩
          rw [h1]
      rcases h with h | h
      · exfalso
        obtain ⟨dv, idx, registro, tr, hdv, hreg, hmap, hdecl⟩ := chainLines_inv h
        rcases hdecl with hdecl | hwire
        · obtain ⟨e, -, hblock⟩ := mem_etapaDeclLines_iff.mp hdecl
          rcases mem_declBlock_iff.mp hblock with heq | ⟨-, heq⟩ <;> injection heq
        · exact wire_edge_no_dia_target hwire _ _ _ rfl b rfl
      · exfalso
        rcases h with h | h
        · revert h
          split
          · intro h
            exact absurd h (List.not_mem_nil _)
          · intro h
            simp only [List.mem_cons, List.not_mem_nil, or_false] at h
            rcases h with h | h <;> injection h
        · revert h
          split
          · intro h
            exact absurd h (List.not_mem_nil _)
          · intro h
            simp only [List.mem_cons, List.not_mem_nil, or_false] at h
            rcases h with h | h <;> injection h

/-- Witness for the amended C8 on the spec's scenario store. -/
theorem c8_day_spine_witness :
    Line.edge (NodeId.dia 3) fimNodeId none ∈ gerarLines storeC6
    ∧ NodeId.dia 3 ≠ fimNodeId :=
  ⟨(c8_day_spine storeC6).2.1 3 (by decide),
   (c8_day_spine storeC6).2.2.1 (by decide) 3 (by decide)⟩

/-! ### Claim C9 -/

/-- C9: a schedule record whose link lookup misses is skipped rather
than aborting generation: no decision (`ST..._ENTRY`) or message
(`ST..._MSG`) node is declared for its day/position slot, the output is
still a diagram (it starts with the `flowchart LR` header), and every
scheduled day still gets its day node. -/
theorem c9_missing_link_skipped (s : Store) (d idx : Nat)
    (registro : DiaComunicacao)
    (hreg : (idx, registro) ∈ enumFrom 1 (porDia s d))
    (hmiss : temaRegraMap s registro.tema_regra_id = none) :
    (∀ nv, NodeId.stEntry d idx nv ∉ declaredNodeIds (gerarLines s)
        ∧ NodeId.stMsg d idx nv ∉ declaredNodeIds (gerarLines s))
    ∧ (gerarLines s)[0]? = some Line.flowchartHeader
    ∧ (∀ n ∈ orderedDays s,
        Line.nodeDia (NodeId.dia n) ("Dia " ++ toString n) ∈ gerarLines s) := by
  have key : ∀ i : NodeId, i ∈ declaredNodeIds (gerarLines s) →
      (∀ nv, i ≠ NodeId.stEntry d idx nv ∧ i ≠ NodeId.stMsg d idx nv) ∨
      (∃ dv' idx' nv', (i = NodeId.stEntry dv' idx' nv' ∨ i = NodeId.stMsg dv' idx' nv')
        ∧ ¬(dv' = d ∧ idx' = idx)) := by
    intro i hi
    rcases declared_id_cases hi with ⟨-, hcase⟩ | ⟨-, hcase⟩
    · left
      intro nv
      rcases hcase with rfl | rfl
      · exact ⟨by simp, by simp⟩
      · exact ⟨by simp [fimNodeId], by simp [fimNodeId]⟩
    · rcases hcase with rfl | ⟨n, -, rfl⟩ |
        ⟨dv, idx', registro', tr, e, hdv, hreg', hmap', he, hco⟩
      · exact Or.inl fun nv => ⟨by simp [fimNodeId], by simp [fimNodeId]⟩
      · exact Or.inl fun nv => ⟨by simp, by simp⟩
      · obtain ⟨pos, L, -, -, -, hmsg, hentry⟩ := mkEtapas_shape he
        by_cases hsame : dv = d ∧ idx' = idx
        · exfalso
          obtain ⟨rfl, rfl⟩ := hsame
          have : registro' = registro := enumFrom_inj hreg' hreg
          rw [this, hmiss] at hmap'
          exact absurd hmap' (by simp)
        · right
          rcases hco with rfl | ⟨htr, rfl⟩
          · exact ⟨dv, idx', pos, Or.inr hmsg, hsame⟩
          · refine ⟨dv, idx', pos, ?_, hsame⟩
            rw [hentry, htr]
            simp
  refine ⟨?_, ?_, ?_⟩
  · intro nv
    constructor
    · intro hmem
      rcases key _ hmem with hne | ⟨dv', idx', nv', hshape, hnot⟩
      · exact absurd rfl (hne nv).1
      · rcases hshape with heq | heq
        · injection heq with h1 h2 h3
          exact hnot ⟨h1.symm, h2.symm⟩
        · injection heq
    · intro hmem
      rcases key _ hmem with hne | ⟨dv', idx', nv', hshape, hnot⟩
      · exact absurd rfl (hne nv).2
      · rcases hshape with heq | heq
        · injection heq
        · injection heq with h1 h2 h3
          exact hnot ⟨h1.symm, h2.symm⟩
  · by_cases hdays : orderedDays s = []
    · rw [gerarLines_of_empty hdays]
      rfl
    · rw [gerarLines_of_ne hdays]
      simp only [List.append_assoc, List.singleton_append, List.cons_append,
        List.getElem?_cons_zero]
  · intro n hn
    have hne : orderedDays s ≠ [] := by
      intro hnil
      rw [hnil] at hn
      exact absurd hn (List.not_mem_nil _)
    rw [gerarLines_of_ne hne]
    simp only [List.append_assoc, List.mem_append]
    right
    left
    unfold dayDeclLines
    exact List.mem_map_of_mem _ hn

/-- Witness for C9 on `storeC9` (its second day-2 record references the
nonexistent link 7). -/
theorem c9_missing_link_skipped_witness :
    NodeId.stMsg 2 2 0 ∉ declaredNodeIds (gerarLines storeC9)
    ∧ (gerarLines storeC9)[0]? = some Line.flowchartHeader
    ∧ Line.nodeDia (NodeId.dia 2) ("Dia " ++ toString 2) ∈ gerarLines storeC9 :=
  ⟨((c9_missing_link_skipped storeC9 2 2 ⟨2, 2, 7, "X"⟩ (by decide) (by decide)).1 0).2,
   (c9_missing_link_skipped storeC9 2 2 ⟨2, 2, 7, "X"⟩ (by decide) (by decide)).2.1,
   (c9_missing_link_skipped storeC9 2 2 ⟨2, 2, 7, "X"⟩ (by decide) (by decide)).2.2
     2 (by decide)⟩

/-! ### Claim C6 -/

/-- `regra_para_decisao` appends a question mark only when the sanitized
description does not already end in one. -/
lemma regraParaDecisao_spec (t : String) :
    pyEndsWith ("?".data) (regraParaDecisao t).data = true
    ∧ (pyEndsWith ("?".data) (sanitize t "Regra").data = true →
        regraParaDecisao t = sanitize t "Regra")
    ∧ (pyEndsWith ("?".data) (sanitize t "Regra").data = false →
        regraParaDecisao t = sanitize t "Regra" ++ "?") := by
  unfold regraParaDecisao
  by_cases h : pyEndsWith ("?".data) (sanitize t "Regra").data = true
  · rw [if_pos h]
    exact ⟨h, fun _ => rfl, fun hf => by rw [h] at hf; cases hf⟩
  · rw [if_neg h]
    refine ⟨?_, fun ht => absurd ht h, fun _ => rfl⟩
    unfold pyEndsWith
    rw [String.data_append]
    have : ("?" : String).data = ['?'] := rfl
    rw [this, List.isSuffixOf_iff_suffix]
    exact List.suffix_append _ _

/-- C6: for a scheduled record whose link resolves to a chain, the
synthesizer (a) emits all its declaration and wiring lines into the
diagram; (b) labels each step with the sanitized rule description and
marks it as a decision exactly when that description is neither blank
nor the "Sem Regra" sentinel (case-insensitively); (c) declares a
decision node, labeled by the description with a single trailing "?",
exactly for the rule-bearing steps; and (d) wires `D(dia)` to the first
step's entry node, each decision's "Sim" edge to its own message node,
each decision's "Não" edge to the next step's entry node, and the final
decision's "Não" edge to its own message node. -/
theorem c6_decision_wiring (s : Store) (dv idx : Nat)
    (registro : DiaComunicacao) (tr : TemaRegra)
    (hdv : dv ∈ orderedDays s)
    (hreg : (idx, registro) ∈ enumFrom 1 (porDia s dv))
    (hmap : temaRegraMap s registro.tema_regra_id = some tr) :
    ∀ etapas, etapas = mkEtapas s registro dv idx (cadeiaAlternativas s tr) →
    (∀ x ∈ etapaDeclLines etapas ++ etapaWireLines dv etapas, x ∈ gerarLines s)
    ∧ (∀ (pos : Nat) (e : Etapa), etapas[pos]? = some e →
        ∃ L, (cadeiaAlternativas s tr)[pos]? = some L
          ∧ e.regra = sanitize
              (match regraMap s L.regra_id with
               | some r => r.descricao
               | none => "") ""
          ∧ (e.temRegra = true ↔
              (e.regra ≠ "" ∧ String.mk (pyLower e.regra.data) ≠ "sem regra")))
    ∧ (∀ (pos : Nat) (e : Etapa), etapas[pos]? = some e → e.temRegra = true →
        Line.nodeDecisao e.entryId (regraParaDecisao e.regra) ∈ etapaDeclLines etapas
        ∧ pyEndsWith ("?".data) (regraParaDecisao e.regra).data = true
        ∧ (pyEndsWith ("?".data) (sanitize e.regra "Regra").data = true →
            regraParaDecisao e.regra = sanitize e.regra "Regra")
        ∧ (pyEndsWith ("?".data) (sanitize e.regra "Regra").data = false →
            regraParaDecisao e.regra = sanitize e.regra "Regra" ++ "?"))
    ∧ (∀ (i' : NodeId) (lbl : String), Line.nodeDecisao i' lbl ∈ etapaDeclLines etapas →
        ∃ e ∈ etapas, e.temRegra = true ∧ i' = e.entryId ∧ lbl = regraParaDecisao e.regra)
    ∧ (∀ (e : Etapa), etapas[0]? = some e →
        Line.edge (NodeId.dia dv) e.entryId none ∈ etapaWireLines dv etapas)
    ∧ (∀ (pos : Nat) (e : Etapa), etapas[pos]? = some e → e.temRegra = true →
        Line.edge e.entryId e.msgId (some "Sim") ∈ etapaWireLines dv etapas)
    ∧ (∀ (pos : Nat) (e prox : Etapa), etapas[pos]? = some e →
        etapas[pos + 1]? = some prox → e.temRegra = true →
        Line.edge e.entryId prox.entryId (some "Não") ∈ etapaWireLines dv etapas)
    ∧ (∀ (pos : Nat) (e : Etapa), etapas[pos]? = some e → etapas[pos + 1]? = none →
        e.temRegra = true →
        Line.edge e.entryId e.msgId (some "Não") ∈ etapaWireLines dv etapas) := by
  intro etapas heta
  refine ⟨?_, ?_, ?_, ?_, ?_, ?_, ?_, ?_⟩
  · intro x hx
    rw [heta] at hx
    rcases List.mem_append.mp hx with hx | hx
    · exact registro_decl_mem_gerar hdv hreg hmap hx
    · exact registro_wire_mem_gerar hdv hreg hmap hx
  · intro pos e he
    rw [heta, mkEtapas_getElem?] at he
    cases hL : (cadeiaAlternativas s tr)[pos]? with
    | none => rw [hL] at he; simp at he
    | some L =>
      rw [hL] at he
      have he' : mkEtapa s registro dv idx pos L = e := Option.some.inj he
      refine ⟨L, rfl, ?_, ?_⟩
      · rw [← he']
        rfl
      · rw [← he', mkEtapa_temRegra]
        simp [bne_iff_ne]
  · intro pos e he htr
    rw [heta] at he
    have hmem : e ∈ mkEtapas s registro dv idx (cadeiaAlternativas s tr) :=
      List.getElem?_mem he
    have hdecl : Line.nodeDecisao e.entryId (regraParaDecisao e.regra)
        ∈ etapaDeclLines etapas := by
      rw [heta]
      exact mem_etapaDeclLines_iff.mpr ⟨e, hmem, mem_declBlock_iff.mpr
        (Or.inr ⟨htr, rfl⟩)⟩
    exact ⟨hdecl, (regraParaDecisao_spec e.regra).1,
      (regraParaDecisao_spec e.regra).2.1, (regraParaDecisao_spec e.regra).2.2⟩
  · intro i' lbl hmem
    obtain ⟨e, he, hblock⟩ := mem_etapaDeclLines_iff.mp hmem
    rcases mem_declBlock_iff.mp hblock with heq | ⟨htr, heq⟩
    · exact absurd heq (by simp)
    · refine ⟨e, he, htr, ?_, ?_⟩
      · injection heq
      · injection heq
  · intro e he
    by_cases htr : e.temRegra
    · exact mem_etapaWireLines_iff.mpr ⟨0, e, he, wireBlock_first_rule htr⟩
    · have htrf : e.temRegra = false := by simpa using htr
      have hent : e.entryId = e.msgId := by
        rw [heta] at he
        obtain ⟨p, L, -, -, -, hmsg, hentry⟩ := mkEtapas_shape (List.getElem?_mem he)
        rw [hentry, hmsg, htrf]
        simp
      rw [hent]
      exact mem_etapaWireLines_iff.mpr ⟨0, e, he, wireBlock_first_norule htrf⟩
  · intro pos e he htr
    exact mem_etapaWireLines_iff.mpr ⟨pos, e, he, wireBlock_sim htr⟩
  · intro pos e prox he hnext htr
    exact mem_etapaWireLines_iff.mpr ⟨pos, e, he, wireBlock_nao_next htr hnext⟩
  · intro pos e he hnext htr
    exact mem_etapaWireLines_iff.mpr ⟨pos, e, he, wireBlock_nao_last htr hnext⟩

/-- Witness for C6 on the spec's scenario: the day-3 chain of link 1
produces the decision "Opened email?" (no doubled question mark), its
"Sim" edge into message "X" and its "Não" edge into the no-rule message
step of link 2, all present in the final diagram. -/
theorem c6_decision_wiring_witness :
    Line.nodeDecisao (NodeId.stEntry 3 1 0) "Opened email?" ∈ gerarLines storeC6
    ∧ Line.edge (NodeId.stEntry 3 1 0) (NodeId.stMsg 3 1 0) (some "Sim")
        ∈ gerarLines storeC6
    ∧ Line.edge (NodeId.stEntry 3 1 0) (NodeId.stMsg 3 1 1) (some "Não")
        ∈ gerarLines storeC6 := by
  have h := c6_decision_wiring storeC6 3 1 ⟨1, 3, 1, "X"⟩ ⟨1, 1, 1, some 2⟩
    (by decide) (by decide) (by decide)
    (mkEtapas storeC6 ⟨1, 3, 1, "X"⟩ 3 1
      (cadeiaAlternativas storeC6 ⟨1, 1, 1, some 2⟩)) rfl
  refine ⟨?_, ?_, ?_⟩
  · apply h.1
    apply List.mem_append_left
    exact (h.2.2.1 0 ⟨0, NodeId.stEntry 3 1 0, NodeId.stMsg 3 1 0, "X",
      "Opened email?", true⟩ (by decide) (by decide)).1
  · apply h.1
    apply List.mem_append_right
    exact h.2.2.2.2.2.1 0 ⟨0, NodeId.stEntry 3 1 0, NodeId.stMsg 3 1 0, "X",
      "Opened email?", true⟩ (by decide) (by decide)
  · apply h.1
    apply List.mem_append_right
    exact h.2.2.2.2.2.2.1 0 ⟨0, NodeId.stEntry 3 1 0, NodeId.stMsg 3 1 0, "X",
      "Opened email?", true⟩ ⟨1, NodeId.stMsg 3 1 1, NodeId.stMsg 3 1 1, "Y",
      "Sem Regra", false⟩ (by decide) (by decide) (by decide)

end ReguaApp
